import Mathlib

/-!
The CNMR central controller (`ndnSIM/tools/cnmr/cc.cc`).

A shallow embedding of the class `ns3::ndn::CC`: the controller that collects
the reports of the monitors, aggregates the timed-out PIT entries per name,
compares the usage ratio with the threshold `gamma` and pushes the set of
malicious prefixes back to the monitors.

* `std::map` is a list of entries with strictly increasing keys (`StdMap`),
  `std::set<Name>` is a `Finset Name`;
* `uint32_t` is a `Nat` reduced modulo `2 ^ 32` where the code does arithmetic;
* `float` is `F32`: the non-negative binary32 values, `+inf` and `NaN`, with
  round-to-nearest-even conversion and division (IEEE-754 arithmetic in single
  precision, without excess precision);
* the `double` byte counters hold non-negative integers and are a `Nat` on
  which every addition rounds to 53 significant bits;
* the calls `setMaliciousPrefixes` and the rows streamed to the trace file are
  outputs of the functions.
-/

namespace ns3.ndn

/-! ## `std::map` -/

section StdMapDefs

variable {K V : Type} [LinearOrder K]

/-- Assignment `m[k] = v` on the entry list of a map: the entry of `k` is
replaced when there is one, otherwise a new entry is put at its place in the
key order. -/
def assignList (k : K) (v : V) : List (K × V) → List (K × V)
  | [] => [(k, v)]
  | (k', v') :: rest =>
    if k < k' then (k, v) :: (k', v') :: rest
    else if k = k' then (k, v) :: rest
    else (k', v') :: assignList k v rest

/-- Lookup of a key in an entry list. -/
def findList (k : K) : List (K × V) → Option V
  | [] => none
  | (k', v') :: rest => if k = k' then some v' else findList k rest

/-- The container `std::map<K, V>`: entries in strictly increasing key order. -/
structure StdMap (K V : Type) [LinearOrder K] where
  /-- The entries, in iteration order. -/
  entries : List (K × V)
  /-- The keys are strictly increasing. -/
  sorted : (entries.map Prod.fst).Pairwise (· < ·)

namespace StdMap

/-- The empty map (a default-constructed `std::map`, or one after `clear()`). -/
def empty : StdMap K V := ⟨[], List.Pairwise.nil⟩

/-- The mapped value of `k`, if any (`find`). -/
def find (m : StdMap K V) (k : K) : Option V := findList k m.entries

/-- Assignment through `operator[]`: `m[k] = v`. The new entry list is again
in strictly increasing key order. -/
def assign (m : StdMap K V) (k : K) (v : V) : StdMap K V :=
  ⟨assignList k v m.entries, by
    have key : ∀ l : List (K × V), (l.map Prod.fst).Pairwise (· < ·) →
        ((assignList k v l).map Prod.fst).Pairwise (· < ·) ∧
          ∀ x ∈ (assignList k v l).map Prod.fst, x = k ∨ x ∈ l.map Prod.fst := by
      intro l
      induction l with
      | nil => intro _; simp [assignList]
      | cons hd tl ih =>
        obtain ⟨k', v'⟩ := hd
        intro h
        simp only [List.map_cons, List.pairwise_cons] at h
        obtain ⟨ih1, ih2⟩ := ih h.2
        unfold assignList
        split_ifs with h1 h2
        · refine ⟨?_, fun x hx => ?_⟩
          · simp only [List.map_cons, List.pairwise_cons, List.mem_cons]
            refine ⟨?_, h.1, h.2⟩
            rintro x (rfl | hx)
            · exact h1
            · exact lt_trans h1 (h.1 x hx)
          · simpa using hx
        · subst h2
          refine ⟨by simpa only [List.map_cons, List.pairwise_cons] using h, fun x hx => ?_⟩
          simp only [List.map_cons, List.mem_cons] at hx ⊢
          tauto
        · refine ⟨?_, fun x hx => ?_⟩
          · simp only [List.map_cons, List.pairwise_cons]
            refine ⟨fun x hx => ?_, ih1⟩
            rcases ih2 x hx with rfl | hx
            · exact lt_of_le_of_ne (not_lt.1 h1) (Ne.symm h2)
            · exact h.1 x hx
          · simp only [List.map_cons, List.mem_cons] at hx ⊢
            rcases hx with rfl | hx
            · exact Or.inr (Or.inl rfl)
            · rcases ih2 x hx with rfl | hx
              · exact Or.inl rfl
              · exact Or.inr (Or.inr hx)
    exact (key m.entries m.sorted).1⟩

/-- The keys of the map, in increasing order. -/
def keys (m : StdMap K V) : List K := m.entries.map Prod.fst

/-- Number of entries (`size()`). -/
def size (m : StdMap K V) : Nat := m.entries.length

end StdMap

/-- Two maps are equal when their entry lists are. -/
instance [DecidableEq V] : DecidableEq (StdMap K V) := fun a b =>
  decidable_of_iff (a.entries = b.entries)
    ⟨fun h => by cases a; cases b; cases h; rfl, fun h => by rw [h]⟩

end StdMapDefs

/-! ## Machine arithmetic -/

/-- Floor of the binary logarithm, by halving (`fuel` bounds the number of
halvings; `fuel = n` is always enough). -/
def log2Fuel : Nat → Nat → Nat
  | 0, _ => 0
  | fuel + 1, n => if n < 2 then 0 else log2Fuel fuel (n / 2) + 1

/-- Floor of the binary logarithm of `n` (`0` for `n = 0`). -/
def ilog2 (n : Nat) : Nat := log2Fuel n n

/-- The quotient `x / y` rounded to the nearest integer, a tie going to the
even neighbour (`y > 0`). -/
def roundNearestEven (x y : Nat) : Nat :=
  if 2 * (x % y) < y then x / y
  else if y < 2 * (x % y) then x / y + 1
  else if (x / y) % 2 = 0 then x / y
  else x / y + 1

/-- Floor of the binary logarithm of the positive rational `a / b`. -/
def ratLog2 (a b : Nat) : Int :=
  if b * 2 ^ ilog2 a ≤ a * 2 ^ ilog2 b then (ilog2 a : Int) - (ilog2 b : Int)
  else (ilog2 a : Int) - (ilog2 b : Int) - 1

/-- The non-negative values of the C++ type `float` (IEEE-754 binary32):
`fin m e` is the finite value `m * 2 ^ e`. The controller only forms floats
from unsigned integers, their quotients and the threshold in `[0, 1]`, so no
negative value occurs. -/
inductive F32 where
  | fin (m : Nat) (e : Int)
  | inf
  | nan
  deriving DecidableEq, Repr

namespace F32

/-- The rational `a / b` (`b > 0`) rounded to binary32 in the default rounding
mode (to nearest, ties to even): 24 significant bits, least exponent `-126`
(below it the spacing stays `2 ^ -149`), and `+inf` from `2 ^ 128` on. -/
def round (a b : Nat) : F32 :=
  if a = 0 then fin 0 0
  else
    let e : Int := max (ratLog2 a b) (-126)
    let s : Int := e - 23
    let m : Nat :=
      if 0 ≤ s then roundNearestEven a (b * 2 ^ s.toNat)
      else roundNearestEven (a * 2 ^ (-s).toNat) b
    if 128 ≤ e ∨ (e = 127 ∧ 2 ^ 24 ≤ m) then inf else fin m s

/-- Conversion `(float) n` of an unsigned integer. -/
def ofUInt32 (n : Nat) : F32 := round n 1

/-- Division of two floats: `x / 0` is `+inf` for `x > 0` and `NaN` for
`x = 0`; a finite quotient is rounded. -/
def div : F32 → F32 → F32
  | fin m1 e1, fin m2 e2 =>
    if m2 = 0 then (if m1 = 0 then nan else inf)
    else round (m1 * 2 ^ (e1 - min e1 e2).toNat) (m2 * 2 ^ (e2 - min e1 e2).toNat)
  | fin _ _, inf => fin 0 0
  | inf, fin _ _ => inf
  | inf, inf => nan
  | nan, _ => nan
  | _, nan => nan

/-- The comparison `x >= y`; it is false as soon as one side is `NaN`. -/
def ge : F32 → F32 → Bool
  | fin m1 e1, fin m2 e2 =>
    decide (m2 * 2 ^ (e2 - min e1 e2).toNat ≤ m1 * 2 ^ (e1 - min e1 e2).toNat)
  | inf, fin _ _ => true
  | inf, inf => true
  | fin _ _, inf => false
  | nan, _ => false
  | _, nan => false

end F32

/-- A non-negative integer rounded to the nearest `double` (53 significant
bits, ties to even); integers below `2 ^ 53` are exact. -/
def roundDouble (n : Nat) : Nat :=
  if n < 2 ^ 53 then n
  else roundNearestEven n (2 ^ (ilog2 n - 52)) * 2 ^ (ilog2 n - 52)

/-- Addition `x + y` of two `double` values that hold non-negative integers. -/
def dadd (x y : Nat) : Nat := roundDouble (x + y)

/-! ## The controller -/

/-- Modelled from the spec: the class `MonitorAwareRouting` is not among the
sources. The controller keeps a pointer to the object of every monitor (its
notification target) and only calls `setMaliciousPrefixes` on it; a handle
stands for the object. -/
abbrev Handle := Nat

/-- Modelled from the spec: the report type `CNMRReport` is declared in
`monitor-app.h`, which is not among the sources. The controller only reads its
member `timedOutEntriesPerName`, a map from names to the number of PIT entries
that timed out (a non-negative integer). -/
structure CNMRReport (Name : Type) [LinearOrder Name] where
  /-- Timed-out PIT entries per name. -/
  timedOutEntriesPerName : StdMap Name Nat

/-- Two reports are equal when their counters are. -/
instance (Name : Type) [LinearOrder Name] : DecidableEq (CNMRReport Name) := fun a b =>
  decidable_of_iff (a.timedOutEntriesPerName = b.timedOutEntriesPerName)
    ⟨fun h => by cases a; cases b; cases h; rfl, fun h => by rw [h]⟩

/-- The part of `Ptr<Node>` that `CC::report` reads: `GetId()` and the
`MonitorAwareRouting` object aggregated to the node (`GetObject`, taken to be
non-null: the reporting node runs the monitor-aware strategy). -/
structure Node where
  /-- Result of `GetId()`. -/
  id : Nat
  /-- Result of `GetObject<ndn::fw::MonitorAwareRouting>()`. -/
  routing : Handle
  deriving DecidableEq, Repr

/-- One row streamed to the trace file by `CC::print`. -/
structure Row where
  /-- Simulation time of the row. -/
  time : Nat
  /-- Column `Node`. -/
  node : String
  /-- Column `Face`. -/
  face : String
  /-- Column `Signal`. -/
  signal : String
  /-- Column `Value`. -/
  value : Nat
  deriving DecidableEq, Repr

/-- The data members of `class CC` (`cc.h`), without the trace file. -/
structure CC (Name : Type) [LinearOrder Name] where
  /-- Capacity of the PIT (`uint32_t`). -/
  pitSize : Nat
  /-- Threshold of the usage ratio (`float`). -/
  gamma : F32
  /-- The set of prefixes last sent to the monitors. -/
  lastReportedPrefixes : Finset Name
  /-- The monitors that have reported, by node id. -/
  monitors : StdMap Nat Handle
  /-- Interval of the statistics timer, in seconds. -/
  intervalPrint : Nat
  /-- Bytes of all control messages (`double`). -/
  sizeReports : Nat
  /-- Bytes sent (`double`). -/
  sizeMessagesSent : Nat
  /-- Bytes received (`double`). -/
  sizeMessagesReceived : Nat
  /-- Messages sent (`uint32_t`). -/
  numMessagesSent : Nat
  /-- Messages received (`uint32_t`). -/
  numMessagesReceived : Nat
  /-- All reports of the current statistics period, by node id. -/
  reportsCurrentPeriod : StdMap Nat (List (CNMRReport Name))
  /-- The last report of every node. -/
  lastReports : StdMap Nat (CNMRReport Name)

section Controller

variable {Name : Type} [LinearOrder Name]

/-- The constructor `CC::CC()`. It reads the global values `PITSize` (stored in
a `uint32_t`; the checker of the value admits every `uint32_t`, zero included)
and `gamma` (a `double` with value `gammaNum / gammaDen`, converted to
`float`), sets the timer interval and leaves the containers empty. The five
counters are not initialised by the constructor: their initial values are the
parameters `sizeReports` to `numMessagesReceived`. -/
def CC.new (v_pitSize gammaNum gammaDen : Nat)
    (sizeReports sizeMessagesSent sizeMessagesReceived numMessagesSent
      numMessagesReceived : Nat) : CC Name :=
  { pitSize := v_pitSize % 2 ^ 32
    gamma := F32.round gammaNum gammaDen
    lastReportedPrefixes := ∅
    monitors := StdMap.empty
    intervalPrint := 10
    sizeReports := sizeReports
    sizeMessagesSent := sizeMessagesSent
    sizeMessagesReceived := sizeMessagesReceived
    numMessagesSent := numMessagesSent
    numMessagesReceived := numMessagesReceived
    reportsCurrentPeriod := StdMap.empty
    lastReports := StdMap.empty }

/-- The function `CC::getSizeReport`: the size of a report on the wire, computed
in `double` from `size_t` operands (64 bits); `sizeofName` is `sizeof(Name)`. -/
def getSizeReport (sizeofName : Nat) (report : CNMRReport Name) : Nat :=
  dadd (dadd (dadd 0 (roundDouble (1 * sizeofName % 2 ^ 64))) (roundDouble (1 * 4)))
    (roundDouble (report.timedOutEntriesPerName.size * ((sizeofName + 4) % 2 ^ 64) % 2 ^ 64))

/-- The statement `timedOutEntriesPerName[name].push_back(count)`: `operator[]`
creates an empty vector for a new name. -/
def pushCount (tally : StdMap Name (List Nat)) (name : Name) (count : Nat) :
    StdMap Name (List Nat) :=
  tally.assign name ((tally.find name).getD [] ++ [count])

/-- The inner loop of the aggregation: all counters of one report. -/
def aggregateReport (tally : StdMap Name (List Nat)) (report : CNMRReport Name) :
    StdMap Name (List Nat) :=
  report.timedOutEntriesPerName.entries.foldl (fun t count => pushCount t count.1 count.2) tally

/-- The first loop of `CC::checkForAttack`: the reported counts of every name,
collected over the last reports of all nodes. -/
def timedOutEntriesPerName (lastReports : StdMap Nat (CNMRReport Name)) :
    StdMap Name (List Nat) :=
  lastReports.entries.foldl (fun t it => aggregateReport t it.2) StdMap.empty

/-- The sum `numTimedOut` of the counts of one name, accumulated in a
`uint32_t` (the counts pass through `int`, which keeps them modulo `2 ^ 32`). -/
def numTimedOut (counts : List Nat) : Nat :=
  counts.foldl (fun acc i => (acc + i) % 2 ^ 32) 0

/-- The value `expireRatio = (float)numTimedOut / pitSize`. -/
def expireRatio (numTimedOut pitSize : Nat) : F32 :=
  F32.div (F32.ofUInt32 numTimedOut) (F32.ofUInt32 pitSize)

/-- The second loop of `CC::checkForAttack`: the names whose ratio reaches
`gamma`. -/
def maliciousPrefixes (cc : CC Name) : Finset Name :=
  (timedOutEntriesPerName cc.lastReports).entries.foldl
    (fun acc d =>
      if F32.ge (expireRatio (numTimedOut d.2) cc.pitSize) cc.gamma = true then insert d.1 acc
      else acc)
    ∅

/-- The function `CC::checkForAttack`. The result is the new state and the calls
`setMaliciousPrefixes` made, as pairs of the monitor called and the set passed,
in the order of the calls. -/
def checkForAttack (sizeofName : Nat) (cc : CC Name) : CC Name × List (Handle × Finset Name) :=
  if maliciousPrefixes cc ≠ cc.lastReportedPrefixes then
    let sizeMsg : Nat :=
      roundDouble
        ((sizeofName + 4 + (maliciousPrefixes cc).card * sizeofName % 2 ^ 64) % 2 ^ 64)
    ({ cc with
        sizeReports := dadd cc.sizeReports sizeMsg
        numMessagesSent := (cc.numMessagesSent + 1) % 2 ^ 32
        sizeMessagesSent := dadd cc.sizeMessagesSent sizeMsg
        lastReportedPrefixes := maliciousPrefixes cc },
      cc.monitors.entries.map (fun it => (it.2, maliciousPrefixes cc)))
  else (cc, [])

/-- The function `CC::report`, on the state of the singleton. -/
def report (sizeofName : Nat) (cc : CC Name) (node : Node) (r : CNMRReport Name) :
    CC Name × List (Handle × Finset Name) :=
  let cc1 : CC Name := { cc with numMessagesReceived := (cc.numMessagesReceived + 1) % 2 ^ 32 }
  let cc2 : CC Name :=
    if cc1.monitors.find node.id = none then
      { cc1 with monitors := cc1.monitors.assign node.id node.routing }
    else cc1
  let cc3 : CC Name :=
    { cc2 with
        reportsCurrentPeriod :=
          cc2.reportsCurrentPeriod.assign node.id
            ((cc2.reportsCurrentPeriod.find node.id).getD [] ++ [r])
        lastReports := cc2.lastReports.assign node.id r }
  let sizeMsg : Nat := getSizeReport sizeofName r
  let cc4 : CC Name :=
    { cc3 with
        sizeReports := dadd cc3.sizeReports sizeMsg
        sizeMessagesReceived := dadd cc3.sizeMessagesReceived sizeMsg
        numMessagesReceived := (cc3.numMessagesReceived + 1) % 2 ^ 32 }
  checkForAttack sizeofName cc4

/-- The state of the controller at the moment `CC::report` calls
`checkForAttack`: the message is counted, the monitor registered, the report
stored and its size added. -/
def stored (sizeofName : Nat) (cc : CC Name) (node : Node) (r : CNMRReport Name) : CC Name :=
  { cc with
      numMessagesReceived := ((cc.numMessagesReceived + 1) % 2 ^ 32 + 1) % 2 ^ 32
      monitors :=
        if cc.monitors.find node.id = none then cc.monitors.assign node.id node.routing
        else cc.monitors
      reportsCurrentPeriod :=
        cc.reportsCurrentPeriod.assign node.id
          ((cc.reportsCurrentPeriod.find node.id).getD [] ++ [r])
      lastReports := cc.lastReports.assign node.id r
      sizeReports := dadd cc.sizeReports (getSizeReport sizeofName r)
      sizeMessagesReceived := dadd cc.sizeMessagesReceived (getSizeReport sizeofName r) }

/-- The function `CC::print` at simulation time `now`. The result is the new
state and the rows streamed to the trace file. -/
def print (cc : CC Name) (now : Nat) : CC Name × List Row :=
  if cc.reportsCurrentPeriod.size = 0 then (cc, [])
  else
    ({ cc with
        reportsCurrentPeriod := StdMap.empty
        sizeReports := 0
        numMessagesSent := 0
        numMessagesReceived := 0
        sizeMessagesSent := 0
        sizeMessagesReceived := 0 },
      [⟨now, "CC", "all", "NumReceived", cc.numMessagesReceived⟩,
       ⟨now, "CC", "all", "NumSent", cc.numMessagesSent⟩,
       ⟨now, "CC", "all", "SizeReceived", cc.sizeMessagesReceived⟩,
       ⟨now, "CC", "all", "SizeSent", cc.sizeMessagesSent⟩])

/-- The function `CC::onTimerPrint`: print, then schedule the next timer. -/
def onTimerPrint (cc : CC Name) (now : Nat) : CC Name × List Row := print cc now

end Controller

section AggregationDefs

variable {Name : Type} [LinearOrder Name]

/-- Specification side: the counts that the last reports give for a name, one
for every monitor whose report has an entry for it, in the order of the
monitors. -/
def reportedCounts (lastReports : StdMap Nat (CNMRReport Name)) (name : Name) : List Nat :=
  lastReports.entries.filterMap (fun it => it.2.timedOutEntriesPerName.find name)

/-- Specification side: the exact sum, over all monitors, of the count that the
last report of the monitor gives for a name (nothing for a report without the
name). -/
def reportedTotal (lastReports : StdMap Nat (CNMRReport Name)) (name : Name) : Nat :=
  (lastReports.entries.map (fun it => (it.2.timedOutEntriesPerName.find name).getD 0)).sum

/-- Specification side: the last report of some monitor has an entry for the
name. -/
def isReported (lastReports : StdMap Nat (CNMRReport Name)) (name : Name) : Prop :=
  ∃ it ∈ lastReports.entries, name ∈ it.2.timedOutEntriesPerName.keys

end AggregationDefs

/-! ## Runs of the controller, exact values and example states -/

/-- The exact value of a finite float, as a rational (`0` for `+inf` and
`NaN`, which have none). -/
def F32.toRat : F32 → ℚ
  | F32.fin m e => (m : ℚ) * (2 : ℚ) ^ e
  | F32.inf => 0
  | F32.nan => 0

section Runs

variable {Name : Type} [LinearOrder Name]

/-- What the simulator makes the controller do: a monitor on `node` calls
`CC::report`, or the statistics timer fires at time `now`. -/
inductive Event (Name : Type) [LinearOrder Name] where
  | report (node : Node) (r : CNMRReport Name)
  | timer (now : Nat)

/-- One event: the new state and the calls `setMaliciousPrefixes` it made. -/
def step (sizeofName : Nat) (cc : CC Name) : Event Name → CC Name × List (Handle × Finset Name)
  | Event.report node r => report sizeofName cc node r
  | Event.timer now => ((onTimerPrint cc now).1, [])

/-- A sequence of events: the final state and, for every event in turn, the
calls `setMaliciousPrefixes` it made. -/
def run (sizeofName : Nat) : CC Name → List (Event Name) →
    CC Name × List (List (Handle × Finset Name))
  | cc, [] => (cc, [])
  | cc, ev :: rest =>
    ((run sizeofName (step sizeofName cc ev).1 rest).1,
      (step sizeofName cc ev).2 :: (run sizeofName (step sizeofName cc ev).1 rest).2)

/-- The dispatches of a run: the set pushed by every event that called
`setMaliciousPrefixes` on some monitor, in order. -/
def dispatchedSets (calls : List (List (Handle × Finset Name))) : List (Finset Name) :=
  calls.filterMap (fun d => d.head?.map Prod.snd)

/-- The set passed in the last call `setMaliciousPrefixes` that one event made
on the monitor `h`, if it made one. -/
def toldIn (calls : List (Handle × Finset Name)) (h : Handle) : Option (Finset Name) :=
  (calls.reverse.find? (fun d => d.1 = h)).map Prod.snd

/-- What the monitor `h` was last told in a run: the set passed in the last
call `setMaliciousPrefixes` made on it, if there was one. -/
def lastTold : List (List (Handle × Finset Name)) → Handle → Option (Finset Name)
  | [], _ => none
  | calls :: rest, h =>
    match lastTold rest h with
    | some S => some S
    | none => toldIn calls h

/-- A report with one entry. -/
def CNMRReport.single (name : Name) (count : Nat) : CNMRReport Name :=
  ⟨StdMap.empty.assign name count⟩

/-- A report without entries. -/
def CNMRReport.none : CNMRReport Name := ⟨StdMap.empty⟩

/-- Specification side: the report `r` with the count of `name` set to
`count`. -/
def CNMRReport.setCount (r : CNMRReport Name) (name : Name) (count : Nat) : CNMRReport Name :=
  ⟨r.timedOutEntriesPerName.assign name count⟩

end Runs

/-- A controller as the scenario builds it: `PITSize = 5000`, `gamma = 0.2`
(the `double` nearest to `0.2`), counters at zero. Names are numbered. -/
def freshCC : CC Nat := CC.new 5000 3602879701896397 (2 ^ 54) 0 0 0 0 0

/-- The fresh controller after the monitors on the nodes 1 to 4 have each
reported `2 ^ 30` timed-out entries for the name `7`. -/
def wrapCC : CC Nat :=
  (run 40 freshCC
    [Event.report ⟨1, 101⟩ (CNMRReport.single 7 (2 ^ 30)),
     Event.report ⟨2, 102⟩ (CNMRReport.single 7 (2 ^ 30)),
     Event.report ⟨3, 103⟩ (CNMRReport.single 7 (2 ^ 30)),
     Event.report ⟨4, 104⟩ (CNMRReport.single 7 (2 ^ 30))]).1

/-- The fresh controller after node 1 has reported 1000 timed-out entries for
the name `7`. -/
def attackCC : CC Nat :=
  (report 40 freshCC ⟨1, 101⟩ (CNMRReport.single 7 1000)).1

/-- The controller inside the report of node 1, when the detection pass starts:
the report is stored and nothing has been announced yet. -/
def pendingCC : CC Nat := { attackCC with lastReportedPrefixes := ∅ }

/-- A controller constructed with `PITSize = 0` (and `gamma = 0.2`). -/
def zeroCC : CC Nat := CC.new 0 3602879701896397 (2 ^ 54) 0 0 0 0 0

/-- The pending controller with the counter of sent messages at the largest
`uint32_t` and `2 ^ 56` bytes sent. -/
def saturatedCC : CC Nat :=
  { pendingCC with numMessagesSent := 4294967295, sizeMessagesSent := 2 ^ 56 }

/-- The fresh controller with `2 ^ 56` bytes received. -/
def heavyCC : CC Nat := { freshCC with sizeMessagesReceived := 2 ^ 56 }

/-- The scenario controller: capacity 100, threshold 0.2, counters at zero. -/
def scenarioCC : CC Nat := CC.new 100 3602879701896397 (2 ^ 54) 0 0 0 0 0

end ns3.ndn

namespace ns3.ndn

/-! ## Facts about `std::map` -/

section StdMapFacts

variable {K V : Type} [LinearOrder K]

theorem mem_keys_assignList (k : K) (v : V) (l : List (K × V)) (x : K) :
    x ∈ (assignList k v l).map Prod.fst ↔ x = k ∨ x ∈ l.map Prod.fst := by
  induction l with
  | nil => simp [assignList]
  | cons hd tl ih =>
    obtain ⟨k', v'⟩ := hd
    unfold assignList
    split_ifs with h1 h2
    · simp
    · subst h2; simp
    · simp only [List.map_cons, List.mem_cons, ih]; tauto

theorem findList_assignList (k : K) (v : V) (l : List (K × V)) (k' : K) :
    findList k' (assignList k v l) = if k' = k then some v else findList k' l := by
  induction l with
  | nil => simp [assignList, findList]
  | cons hd tl ih =>
    obtain ⟨k0, v0⟩ := hd
    unfold assignList
    split_ifs with h1 h2 h3 h3 h3
    all_goals simp_all [findList]

theorem assignList_comm (k1 k2 : K) (v1 v2 : V) (h : k1 ≠ k2) (l : List (K × V)) :
    assignList k1 v1 (assignList k2 v2 l) = assignList k2 v2 (assignList k1 v1 l) := by
  induction l with
  | nil =>
    rcases lt_trichotomy k1 k2 with h' | h' | h'
    · simp [assignList, h', h'.not_lt, h, Ne.symm h]
    · exact absurd h' h
    · simp [assignList, h', h'.not_lt, h, Ne.symm h]
  | cons hd tl ih =>
    obtain ⟨k0, v0⟩ := hd
    rcases lt_trichotomy k1 k0 with a | a | a <;> rcases lt_trichotomy k2 k0 with b | b | b <;>
      rcases lt_trichotomy k1 k2 with c | c | c <;>
      first
        | exact absurd c h
        | exact absurd (lt_trans (lt_trans a b) c) (lt_irrefl _)
        | exact absurd (lt_trans (lt_trans b a) c) (lt_irrefl _)
        | (subst_vars; simp_all [assignList, lt_asymm, not_lt_of_gt, ne_of_gt, ne_of_lt])

theorem assignList_assignList (k : K) (v v' : V) (l : List (K × V)) :
    assignList k v' (assignList k v l) = assignList k v' l := by
  induction l with
  | nil => simp [assignList]
  | cons hd tl ih =>
    obtain ⟨k0, v0⟩ := hd
    rcases lt_trichotomy k k0 with a | a | a
    · simp [assignList, a]
    · subst a; simp [assignList]
    · simp [assignList, lt_asymm a, ne_of_gt a, ih]

theorem findList_eq_none_iff (k : K) (l : List (K × V)) :
    findList k l = none ↔ k ∉ l.map Prod.fst := by
  induction l with
  | nil => simp [findList]
  | cons hd tl ih =>
    obtain ⟨k0, v0⟩ := hd
    by_cases h : k = k0
    · simp [findList, h]
    · simp [findList, h, ih]

theorem mem_iff_findList (l : List (K × V)) (h : (l.map Prod.fst).Pairwise (· < ·))
    (k : K) (v : V) : (k, v) ∈ l ↔ findList k l = some v := by
  induction l with
  | nil => simp [findList]
  | cons hd tl ih =>
    obtain ⟨k0, v0⟩ := hd
    simp only [List.map_cons, List.pairwise_cons] at h
    by_cases hk : k = k0
    · subst hk
      have hnot : ∀ w, (k, w) ∉ tl := fun w hw =>
        lt_irrefl k (h.1 k (List.mem_map.2 ⟨(k, w), hw, rfl⟩))
      simp [findList, hnot, eq_comm]
    · simp [findList, hk, ih h.2]

namespace StdMap

theorem ext_entries {m1 m2 : StdMap K V} (h : m1.entries = m2.entries) : m1 = m2 := by
  cases m1; cases m2; cases h; rfl

theorem find_empty (k : K) : (empty : StdMap K V).find k = none := rfl

theorem find_assign (m : StdMap K V) (k : K) (v : V) (k' : K) :
    (m.assign k v).find k' = if k' = k then some v else m.find k' :=
  findList_assignList k v m.entries k'

theorem assign_comm (m : StdMap K V) (k1 k2 : K) (v1 v2 : V) (h : k1 ≠ k2) :
    (m.assign k2 v2).assign k1 v1 = (m.assign k1 v1).assign k2 v2 :=
  ext_entries (assignList_comm k1 k2 v1 v2 h m.entries)

theorem assign_assign (m : StdMap K V) (k : K) (v v' : V) :
    (m.assign k v).assign k v' = m.assign k v' :=
  ext_entries (assignList_assignList k v v' m.entries)

theorem mem_keys_assign (m : StdMap K V) (k : K) (v : V) (x : K) :
    x ∈ (m.assign k v).keys ↔ x = k ∨ x ∈ m.keys :=
  mem_keys_assignList k v m.entries x

theorem find_eq_none_iff (m : StdMap K V) (k : K) : m.find k = none ↔ k ∉ m.keys :=
  findList_eq_none_iff k m.entries

theorem mem_entries_iff (m : StdMap K V) (k : K) (v : V) :
    (k, v) ∈ m.entries ↔ m.find k = some v :=
  mem_iff_findList m.entries m.sorted k v

theorem nodup_keys (m : StdMap K V) : m.keys.Nodup :=
  m.sorted.imp (fun h => ne_of_lt h)

theorem size_assign_pos (m : StdMap K V) (k : K) (v : V) : 0 < (m.assign k v).size := by
  have h : k ∈ (m.assign k v).keys := (mem_keys_assign m k v k).2 (Or.inl rfl)
  unfold keys at h
  unfold size
  cases hE : (m.assign k v).entries with
  | nil => rw [hE] at h; simp at h
  | cons _ _ => simp

end StdMap

end StdMapFacts

end ns3.ndn

namespace ns3.ndn


/-! ## Facts about the aggregation -/

section AggregationFacts

variable {Name : Type} [LinearOrder Name]

theorem find_pushCount (t : StdMap Name (List Nat)) (n : Name) (c : Nat) (n' : Name) :
    (pushCount t n c).find n' =
      if n' = n then some ((t.find n).getD [] ++ [c]) else t.find n' :=
  StdMap.find_assign t n _ n'

theorem find_foldl_pushCount (l : List (Name × Nat)) (h : (l.map Prod.fst).Pairwise (· < ·))
    (t : StdMap Name (List Nat)) (n : Name) :
    (l.foldl (fun t count => pushCount t count.1 count.2) t).find n =
      match findList n l with
      | none => t.find n
      | some c => some ((t.find n).getD [] ++ [c]) := by
  induction l generalizing t with
  | nil => simp [findList]
  | cons hd tl ih =>
    obtain ⟨k, c⟩ := hd
    simp only [List.map_cons, List.pairwise_cons] at h
    rw [List.foldl_cons, ih h.2]
    by_cases hk : n = k
    · subst hk
      have hnone : findList n tl = none :=
        (findList_eq_none_iff n tl).2 (fun hmem => lt_irrefl n (h.1 n hmem))
      simp [findList, hnone, find_pushCount]
    · simp [findList, hk, find_pushCount]

theorem find_aggregateReport (t : StdMap Name (List Nat)) (r : CNMRReport Name) (n : Name) :
    (aggregateReport t r).find n =
      match r.timedOutEntriesPerName.find n with
      | none => t.find n
      | some c => some ((t.find n).getD [] ++ [c]) :=
  find_foldl_pushCount r.timedOutEntriesPerName.entries r.timedOutEntriesPerName.sorted t n

theorem find_foldl_aggregateReport (l : List (Nat × CNMRReport Name))
    (t : StdMap Name (List Nat)) (n : Name) :
    (l.foldl (fun t it => aggregateReport t it.2) t).find n =
      if l.filterMap (fun it => it.2.timedOutEntriesPerName.find n) = [] then t.find n
      else some ((t.find n).getD [] ++
        l.filterMap (fun it => it.2.timedOutEntriesPerName.find n)) := by
  induction l generalizing t with
  | nil => simp
  | cons hd tl ih =>
    rw [List.foldl_cons, ih, find_aggregateReport]
    cases hf : hd.2.timedOutEntriesPerName.find n with
    | none =>
      have hfm : (hd :: tl).filterMap (fun it => it.2.timedOutEntriesPerName.find n) =
          tl.filterMap (fun it => it.2.timedOutEntriesPerName.find n) := by
        rw [List.filterMap_cons]; simp only [hf]
      rw [hfm]
    | some c =>
      have hfm : (hd :: tl).filterMap (fun it => it.2.timedOutEntriesPerName.find n) =
          c :: tl.filterMap (fun it => it.2.timedOutEntriesPerName.find n) := by
        rw [List.filterMap_cons]; simp only [hf]
      rw [hfm]
      by_cases h1 : tl.filterMap (fun it => it.2.timedOutEntriesPerName.find n) = []
      · simp [h1]
      · simp [h1]

theorem find_timedOutEntriesPerName (lastReports : StdMap Nat (CNMRReport Name)) (n : Name) :
    (timedOutEntriesPerName lastReports).find n =
      if reportedCounts lastReports n = [] then none else some (reportedCounts lastReports n) := by
  unfold timedOutEntriesPerName reportedCounts
  rw [find_foldl_aggregateReport]
  simp [StdMap.find_empty]

theorem reportedCounts_eq_nil_iff (lastReports : StdMap Nat (CNMRReport Name)) (n : Name) :
    reportedCounts lastReports n = [] ↔ ¬ isReported lastReports n := by
  unfold reportedCounts isReported
  rw [List.filterMap_eq_nil_iff]
  constructor
  · rintro h ⟨it, hit, hn⟩
    exact ((StdMap.find_eq_none_iff _ _).1 (h it hit)) hn
  · intro h it hit
    by_contra hne
    exact h ⟨it, hit, by
      by_contra hk
      exact hne ((StdMap.find_eq_none_iff _ _).2 hk)⟩

theorem sum_reportedCounts (lastReports : StdMap Nat (CNMRReport Name)) (n : Name) :
    (reportedCounts lastReports n).sum = reportedTotal lastReports n := by
  unfold reportedCounts reportedTotal
  induction lastReports.entries with
  | nil => simp
  | cons hd tl ih =>
    cases hf : hd.2.timedOutEntriesPerName.find n with
    | none => simp [List.filterMap_cons, hf, ih]
    | some c => simp [List.filterMap_cons, hf, ih]

theorem foldl_add_mod (l : List Nat) (a : Nat) :
    l.foldl (fun acc i => (acc + i) % 2 ^ 32) (a % 2 ^ 32) = (a + l.sum) % 2 ^ 32 := by
  induction l generalizing a with
  | nil => simp
  | cons i tl ih =>
    rw [List.foldl_cons, Nat.mod_add_mod, ih, List.sum_cons, Nat.add_assoc]

theorem numTimedOut_eq (counts : List Nat) : numTimedOut counts = counts.sum % 2 ^ 32 := by
  have h := foldl_add_mod counts 0
  simpa [numTimedOut] using h

theorem mem_foldl_insert {α : Type} (p : α → Prop) [DecidablePred p] (key : α → Name)
    (l : List α) (init : Finset Name) (x : Name) :
    x ∈ l.foldl (fun acc d => if p d then insert (key d) acc else acc) init ↔
      x ∈ init ∨ ∃ d ∈ l, key d = x ∧ p d := by
  induction l generalizing init with
  | nil => simp
  | cons hd tl ih =>
    rw [List.foldl_cons, ih]
    by_cases hp : p hd
    · simp only [hp, if_true, Finset.mem_insert, List.mem_cons, exists_eq_or_imp, and_true]
      constructor
      · rintro ((h | h) | h)
        · exact Or.inr (Or.inl h.symm)
        · exact Or.inl h
        · exact Or.inr (Or.inr h)
      · rintro (h | h | h)
        · exact Or.inl (Or.inr h)
        · exact Or.inl (Or.inl h.symm)
        · exact Or.inr h
    · simp [hp]

/-- The set computed by the second loop of `checkForAttack`: a name is in it
exactly when it is reported and the ratio of its wrapped sum reaches `gamma`. -/
theorem mem_maliciousPrefixes (cc : CC Name) (n : Name) :
    n ∈ maliciousPrefixes cc ↔
      isReported cc.lastReports n ∧
      F32.ge (expireRatio (reportedTotal cc.lastReports n % 2 ^ 32) cc.pitSize) cc.gamma
        = true := by
  unfold maliciousPrefixes
  rw [mem_foldl_insert
    (fun d : Name × List Nat =>
      F32.ge (expireRatio (numTimedOut d.2) cc.pitSize) cc.gamma = true) Prod.fst]
  simp only [Finset.not_mem_empty, false_or]
  constructor
  · rintro ⟨⟨k, counts⟩, hd, hk, hp⟩
    simp only at hk hp
    subst hk
    rw [StdMap.mem_entries_iff, find_timedOutEntriesPerName] at hd
    split_ifs at hd with hnil
    have hrep : isReported cc.lastReports k := by
      by_contra hnot
      exact hnil ((reportedCounts_eq_nil_iff _ _).2 hnot)
    refine ⟨hrep, ?_⟩
    have hc : counts = reportedCounts cc.lastReports k := (Option.some.inj hd).symm
    rw [numTimedOut_eq, hc, sum_reportedCounts] at hp
    exact hp
  · rintro ⟨hrep, hp⟩
    have hnil : reportedCounts cc.lastReports n ≠ [] := fun h =>
      ((reportedCounts_eq_nil_iff _ _).1 h) hrep
    refine ⟨(n, reportedCounts cc.lastReports n), ?_, rfl, ?_⟩
    · rw [StdMap.mem_entries_iff, find_timedOutEntriesPerName, if_neg hnil]
    · simp only
      rw [numTimedOut_eq, sum_reportedCounts]
      exact hp

theorem sum_map_assignList {K V : Type} [LinearOrder K] (f : V → Nat) (k : K) (r r' : V)
    (l : List (K × V)) (hs : (l.map Prod.fst).Pairwise (· < ·)) (hf : findList k l = some r) :
    ((assignList k r' l).map (fun it => f it.2)).sum + f r =
      (l.map (fun it => f it.2)).sum + f r' := by
  induction l with
  | nil => simp [findList] at hf
  | cons hd tl ih =>
    obtain ⟨k0, v0⟩ := hd
    simp only [List.map_cons, List.pairwise_cons] at hs
    unfold assignList
    split_ifs with h1 h2
    · exfalso
      have hne : k ≠ k0 := ne_of_lt h1
      simp only [findList, if_neg hne] at hf
      have hmem : k ∈ tl.map Prod.fst := by
        by_contra hnot
        rw [(findList_eq_none_iff k tl).2 hnot] at hf
        exact Option.noConfusion hf
      exact lt_asymm h1 (hs.1 k hmem)
    · subst h2
      simp only [findList, if_true] at hf
      cases hf
      simp only [List.map_cons, List.sum_cons]
      omega
    · simp only [findList, if_neg h2] at hf
      have := ih hs.2 hf
      simp only [List.map_cons, List.sum_cons]
      omega

theorem reportedTotal_assign (lastReports : StdMap Nat (CNMRReport Name)) (k : Nat)
    (r r' : CNMRReport Name) (n : Name) (hf : lastReports.find k = some r) :
    reportedTotal (lastReports.assign k r') n + (r.timedOutEntriesPerName.find n).getD 0 =
      reportedTotal lastReports n + (r'.timedOutEntriesPerName.find n).getD 0 :=
  sum_map_assignList (fun v : CNMRReport Name => (v.timedOutEntriesPerName.find n).getD 0)
    k r r' lastReports.entries lastReports.sorted hf

theorem isReported_assign (lastReports : StdMap Nat (CNMRReport Name)) (k : Nat)
    (r' : CNMRReport Name) (n : Name) (h : n ∈ r'.timedOutEntriesPerName.keys) :
    isReported (lastReports.assign k r') n := by
  refine ⟨(k, r'), ?_, h⟩
  rw [StdMap.mem_entries_iff, StdMap.find_assign, if_pos rfl]

end AggregationFacts

end ns3.ndn

namespace ns3.ndn

/-! ## Facts about the machine arithmetic -/

section FloatFacts

theorem log2Fuel_spec (fuel n : Nat) (hf : n ≤ fuel) (hn : 0 < n) :
    2 ^ log2Fuel fuel n ≤ n ∧ n < 2 ^ (log2Fuel fuel n + 1) := by
  induction fuel generalizing n with
  | zero => omega
  | succ f ih =>
    unfold log2Fuel
    split_ifs with h
    · constructor <;> simp <;> omega
    · have h2 := ih (n / 2) (by omega) (by omega)
      constructor
      · have : 2 ^ (log2Fuel f (n / 2) + 1) = 2 * 2 ^ log2Fuel f (n / 2) := by ring
        omega
      · have : 2 ^ (log2Fuel f (n / 2) + 1 + 1) = 2 * 2 ^ (log2Fuel f (n / 2) + 1) := by ring
        omega

theorem ilog2_spec (n : Nat) (hn : 0 < n) : 2 ^ ilog2 n ≤ n ∧ n < 2 ^ (ilog2 n + 1) :=
  log2Fuel_spec n n (le_refl n) hn

theorem roundNearestEven_spec (x y : Nat) (hy : 0 < y) :
    2 * (y * roundNearestEven x y) ≤ 2 * x + y ∧ 2 * x ≤ 2 * (y * roundNearestEven x y) + y := by
  have hx : y * (x / y) + x % y = x := Nat.div_add_mod x y
  have hr : x % y < y := Nat.mod_lt x hy
  have e1 : y * (x / y + 1) = y * (x / y) + y := by ring
  unfold roundNearestEven
  split_ifs <;> (try rw [e1]) <;> omega

theorem roundNearestEven_mul (k y : Nat) (hy : 0 < y) : roundNearestEven (k * y) y = k := by
  unfold roundNearestEven
  rw [Nat.mul_mod_left, Nat.mul_div_cancel k hy]
  simp [hy]

theorem ratLog2_spec (a b : Nat) (ha : 0 < a) (hb : 0 < b) :
    (2 : ℚ) ^ ratLog2 a b ≤ (a : ℚ) / b ∧ (a : ℚ) / b < (2 : ℚ) ^ (ratLog2 a b + 1) := by
  obtain ⟨ha1, ha2⟩ := ilog2_spec a ha
  obtain ⟨hb1, hb2⟩ := ilog2_spec b hb
  have hbq : (0 : ℚ) < b := by exact_mod_cast hb
  have h2 : (0 : ℚ) < 2 := by norm_num
  have ha1q : (2 : ℚ) ^ ilog2 a ≤ a := by exact_mod_cast ha1
  have ha2q : (a : ℚ) < 2 ^ (ilog2 a + 1) := by exact_mod_cast ha2
  have hb1q : (2 : ℚ) ^ ilog2 b ≤ b := by exact_mod_cast hb1
  have hb2q : (b : ℚ) < 2 ^ (ilog2 b + 1) := by exact_mod_cast hb2
  have hpa : (0 : ℚ) < 2 ^ ilog2 a := by positivity
  have hpb : (0 : ℚ) < 2 ^ ilog2 b := by positivity
  unfold ratLog2
  split_ifs with h
  · have hq : (b : ℚ) * 2 ^ ilog2 a ≤ a * 2 ^ ilog2 b := by exact_mod_cast h
    have e1 : (2 : ℚ) ^ ((ilog2 a : ℤ) - (ilog2 b : ℤ)) = 2 ^ ilog2 a / 2 ^ ilog2 b := by
      rw [zpow_sub₀ (by norm_num), zpow_natCast, zpow_natCast]
    have e2 : (2 : ℚ) ^ ((ilog2 a : ℤ) - (ilog2 b : ℤ) + 1) =
        2 ^ (ilog2 a + 1) / 2 ^ ilog2 b := by
      rw [zpow_add₀ (by norm_num), e1, zpow_one, pow_succ]; ring
    rw [e1, e2]
    constructor
    · rw [div_le_div_iff₀ hpb hbq]; linarith
    · rw [div_lt_div_iff₀ hbq hpb]
      calc (a : ℚ) * 2 ^ ilog2 b < 2 ^ (ilog2 a + 1) * 2 ^ ilog2 b := by
            exact mul_lt_mul_of_pos_right ha2q hpb
        _ ≤ 2 ^ (ilog2 a + 1) * b := by
            exact mul_le_mul_of_nonneg_left hb1q (by positivity)
  · have hq : (a : ℚ) * 2 ^ ilog2 b < b * 2 ^ ilog2 a := by exact_mod_cast not_le.1 h
    have e1 : (2 : ℚ) ^ ((ilog2 a : ℤ) - (ilog2 b : ℤ) - 1) =
        2 ^ ilog2 a / 2 ^ (ilog2 b + 1) := by
      rw [zpow_sub₀ (by norm_num), zpow_sub₀ (by norm_num), zpow_natCast, zpow_natCast,
        zpow_one, pow_succ]
      field_simp
    have e2 : (2 : ℚ) ^ ((ilog2 a : ℤ) - (ilog2 b : ℤ) - 1 + 1) = 2 ^ ilog2 a / 2 ^ ilog2 b := by
      rw [sub_add_cancel, zpow_sub₀ (by norm_num), zpow_natCast, zpow_natCast]
    rw [e1, e2]
    constructor
    · rw [div_le_div_iff₀ (by positivity) hbq]
      calc (2 : ℚ) ^ ilog2 a * b ≤ 2 ^ ilog2 a * 2 ^ (ilog2 b + 1) := by
            exact mul_le_mul_of_nonneg_left (le_of_lt hb2q) (by positivity)
        _ ≤ a * 2 ^ (ilog2 b + 1) := by
            exact mul_le_mul_of_nonneg_right ha1q (by positivity)
    · rw [div_lt_div_iff₀ hbq hpb]; linarith

theorem zpow_two_split (e m : ℤ) (h : m ≤ e) :
    (2 : ℚ) ^ e = ((2 ^ (e - m).toNat : ℕ) : ℚ) * (2 : ℚ) ^ m := by
  have h1 : ((e - m).toNat : ℤ) = e - m := Int.toNat_of_nonneg (by omega)
  rw [Nat.cast_pow, Nat.cast_ofNat, ← zpow_natCast, h1, ← zpow_add₀ (by norm_num)]
  congr 1
  omega

theorem round_normal (a b : Nat) (ha : 0 < a) (hb : 0 < b)
    (hlo : (2 : ℚ) ^ (-126 : ℤ) ≤ (a : ℚ) / b) (hhi : (a : ℚ) / b < (2 : ℚ) ^ (127 : ℤ)) :
    ∃ X Y : Nat, 0 < Y ∧ (X : ℚ) / Y = (a : ℚ) / b / (2 : ℚ) ^ (ratLog2 a b - 23) ∧
      F32.round a b = F32.fin (roundNearestEven X Y) (ratLog2 a b - 23) := by
  obtain ⟨h1, h2⟩ := ratLog2_spec a b ha hb
  have hE1 : -126 ≤ ratLog2 a b := by
    have : (2 : ℚ) ^ (-126 : ℤ) < (2 : ℚ) ^ (ratLog2 a b + 1) := lt_of_le_of_lt hlo h2
    have := (zpow_lt_zpow_iff_right₀ (by norm_num : (1 : ℚ) < 2)).1 this
    omega
  have hE2 : ratLog2 a b < 127 := by
    have : (2 : ℚ) ^ (ratLog2 a b) < (2 : ℚ) ^ (127 : ℤ) := lt_of_le_of_lt h1 hhi
    exact (zpow_lt_zpow_iff_right₀ (by norm_num : (1 : ℚ) < 2)).1 this
  have hbq : (0 : ℚ) < b := by exact_mod_cast hb
  unfold F32.round
  rw [if_neg (by omega : ¬ a = 0)]
  simp only [max_eq_left hE1]
  rw [if_neg (by omega)]
  by_cases hs : 0 ≤ ratLog2 a b - 23
  · rw [if_pos hs]
    refine ⟨a, b * 2 ^ (ratLog2 a b - 23).toNat, by positivity, ?_, rfl⟩
    have e := zpow_two_split (ratLog2 a b - 23) 0 hs
    rw [e]
    push_cast
    simp only [sub_zero, zpow_zero, mul_one]
    rw [div_div]
  · rw [if_neg hs]
    refine ⟨a * 2 ^ (-(ratLog2 a b - 23)).toNat, b, hb, ?_, rfl⟩
    have e := zpow_two_split 0 (ratLog2 a b - 23) (by omega)
    have hpos : (0 : ℚ) < (2 : ℚ) ^ (ratLog2 a b - 23) := by positivity
    have e' : (((2 ^ (-(ratLog2 a b - 23)).toNat : ℕ) : ℚ)) = 1 / (2 : ℚ) ^ (ratLog2 a b - 23) := by
      rw [eq_div_iff (ne_of_gt hpos)]
      have : (0 : ℤ) - (ratLog2 a b - 23) = -(ratLog2 a b - 23) := by ring
      rw [this] at e
      rw [← e, zpow_zero]
    push_cast at e' ⊢
    rw [e', mul_one_div, div_right_comm]

theorem round_bounds (a b : Nat) (ha : 0 < a) (hb : 0 < b)
    (hlo : (2 : ℚ) ^ (-126 : ℤ) ≤ (a : ℚ) / b) (hhi : (a : ℚ) / b < (2 : ℚ) ^ (127 : ℤ)) :
    ∃ m : Nat, F32.round a b = F32.fin m (ratLog2 a b - 23) ∧
      (m : ℚ) * (2 : ℚ) ^ (ratLog2 a b - 23) ≤
        (a : ℚ) / b + (2 : ℚ) ^ (ratLog2 a b - 23) / 2 ∧
      (a : ℚ) / b ≤
        (m : ℚ) * (2 : ℚ) ^ (ratLog2 a b - 23) + (2 : ℚ) ^ (ratLog2 a b - 23) / 2 := by
  obtain ⟨X, Y, hY, hXY, hr⟩ := round_normal a b ha hb hlo hhi
  obtain ⟨r1, r2⟩ := roundNearestEven_spec X Y hY
  refine ⟨roundNearestEven X Y, hr, ?_, ?_⟩
  all_goals
    have hYq : (0 : ℚ) < Y := by exact_mod_cast hY
    have hP : (0 : ℚ) < (2 : ℚ) ^ (ratLog2 a b - 23) := by positivity
    have r1q : (2 : ℚ) * ((Y : ℚ) * (roundNearestEven X Y : ℚ)) ≤ 2 * X + Y := by
      exact_mod_cast r1
    have r2q : (2 : ℚ) * X ≤ 2 * ((Y : ℚ) * (roundNearestEven X Y : ℚ)) + Y := by
      exact_mod_cast r2
    have hx : (a : ℚ) / b = (X : ℚ) / Y * (2 : ℚ) ^ (ratLog2 a b - 23) := by
      rw [hXY, div_mul_cancel₀ _ (ne_of_gt hP)]
    rw [hx]
  · have h1 : (roundNearestEven X Y : ℚ) ≤ (X : ℚ) / Y + 1 / 2 := by
      rw [div_add_div _ _ (ne_of_gt hYq) (by norm_num), le_div_iff₀ (by positivity)]
      linarith
    calc (roundNearestEven X Y : ℚ) * (2 : ℚ) ^ (ratLog2 a b - 23)
        ≤ ((X : ℚ) / Y + 1 / 2) * (2 : ℚ) ^ (ratLog2 a b - 23) :=
          mul_le_mul_of_nonneg_right h1 (le_of_lt hP)
      _ = (X : ℚ) / Y * (2 : ℚ) ^ (ratLog2 a b - 23) + (2 : ℚ) ^ (ratLog2 a b - 23) / 2 := by
          ring
  · have h1 : (X : ℚ) / Y ≤ (roundNearestEven X Y : ℚ) + 1 / 2 := by
      rw [div_le_iff₀ hYq]
      linarith
    calc (X : ℚ) / Y * (2 : ℚ) ^ (ratLog2 a b - 23)
        ≤ ((roundNearestEven X Y : ℚ) + 1 / 2) * (2 : ℚ) ^ (ratLog2 a b - 23) :=
          mul_le_mul_of_nonneg_right h1 (le_of_lt hP)
      _ = (roundNearestEven X Y : ℚ) * (2 : ℚ) ^ (ratLog2 a b - 23) +
            (2 : ℚ) ^ (ratLog2 a b - 23) / 2 := by
          ring

theorem round_ne_zero (a b : Nat) (ha : 0 < a) (hb : 0 < b)
    (hlo : (2 : ℚ) ^ (-126 : ℤ) ≤ (a : ℚ) / b) (hhi : (a : ℚ) / b < (2 : ℚ) ^ (127 : ℤ)) :
    ∃ (m : Nat) (s : ℤ), F32.round a b = F32.fin m s ∧ m ≠ 0 := by
  obtain ⟨m, hr, -, hb2⟩ := round_bounds a b ha hb hlo hhi
  obtain ⟨h1, -⟩ := ratLog2_spec a b ha hb
  refine ⟨m, _, hr, ?_⟩
  rintro rfl
  have hP : (0 : ℚ) < (2 : ℚ) ^ (ratLog2 a b - 23) := by positivity
  have hE : (2 : ℚ) ^ ratLog2 a b = 2 ^ (23 : ℤ) * (2 : ℚ) ^ (ratLog2 a b - 23) := by
    rw [← zpow_add₀ (by norm_num)]; congr 1; ring
  rw [hE] at h1
  norm_num at hb2 h1
  linarith

theorem ge_fin_iff (m1 m2 : Nat) (e1 e2 : ℤ) :
    F32.ge (F32.fin m1 e1) (F32.fin m2 e2) = true ↔
      (m2 : ℚ) * (2 : ℚ) ^ e2 ≤ (m1 : ℚ) * (2 : ℚ) ^ e1 := by
  have hμ : (0 : ℚ) < (2 : ℚ) ^ (min e1 e2) := by positivity
  simp only [F32.ge, decide_eq_true_eq]
  rw [zpow_two_split e1 (min e1 e2) (min_le_left _ _),
    zpow_two_split e2 (min e1 e2) (min_le_right _ _), ← mul_assoc, ← mul_assoc,
    mul_le_mul_right hμ]
  exact_mod_cast Iff.rfl

theorem div_fin (m1 m2 : Nat) (e1 e2 : ℤ) (h2 : m2 ≠ 0) :
    ∃ A B : Nat, 0 < B ∧ (m1 ≠ 0 → 0 < A) ∧ (m1 = 0 → A = 0) ∧
      (A : ℚ) / B = (m1 : ℚ) * (2 : ℚ) ^ e1 / ((m2 : ℚ) * (2 : ℚ) ^ e2) ∧
      F32.div (F32.fin m1 e1) (F32.fin m2 e2) = F32.round A B := by
  refine ⟨m1 * 2 ^ (e1 - min e1 e2).toNat, m2 * 2 ^ (e2 - min e1 e2).toNat, ?_, ?_, ?_, ?_, ?_⟩
  · have : 0 < m2 := Nat.pos_of_ne_zero h2
    positivity
  · intro h1
    have : 0 < m1 := Nat.pos_of_ne_zero h1
    positivity
  · rintro rfl; simp
  · have hμ : (0 : ℚ) < (2 : ℚ) ^ (min e1 e2) := by positivity
    rw [zpow_two_split e1 (min e1 e2) (min_le_left _ _),
      zpow_two_split e2 (min e1 e2) (min_le_right _ _), ← mul_assoc, ← mul_assoc,
      mul_div_mul_right _ _ (ne_of_gt hμ)]
    push_cast
    rfl
  · simp only [F32.div, if_neg h2]

theorem round_zero (b : Nat) : F32.round 0 b = F32.fin 0 0 := by
  simp [F32.round]

theorem ofUInt32_ne_zero (n : Nat) (h0 : 0 < n) (h : n < 2 ^ 32) :
    ∃ (m : Nat) (s : ℤ), F32.ofUInt32 n = F32.fin m s ∧ m ≠ 0 := by
  have hn1 : (1 : ℚ) ≤ n := by exact_mod_cast h0
  have hn2 : (n : ℚ) < (2 : ℚ) ^ (32 : ℕ) := by exact_mod_cast h
  exact round_ne_zero n 1 h0 (by norm_num) (by norm_num; linarith)
    (by norm_num at hn2 ⊢; linarith)

/-- With capacity zero the ratio of a non-zero sum is `+inf` and the ratio of
the sum zero is `NaN`. -/
theorem expireRatio_zero_capacity (t : Nat) (h : t < 2 ^ 32) :
    expireRatio t 0 = if t = 0 then F32.nan else F32.inf := by
  unfold expireRatio
  have hz : F32.ofUInt32 0 = F32.fin 0 0 := round_zero 1
  rw [hz]
  split_ifs with h0
  · subst h0; rw [hz]; rfl
  · obtain ⟨m, s, hr, hm⟩ := ofUInt32_ne_zero t (Nat.pos_of_ne_zero h0) h
    rw [hr]
    simp [F32.div, hm]

theorem roundNearestEven_tie (x y : Nat) (hy : 0 < y) :
    (2 * (y * roundNearestEven x y) = 2 * x + y → roundNearestEven x y % 2 = 0) ∧
    (2 * x = 2 * (y * roundNearestEven x y) + y → roundNearestEven x y % 2 = 0) := by
  have hx : y * (x / y) + x % y = x := Nat.div_add_mod x y
  have hr : x % y < y := Nat.mod_lt x hy
  have e1 : y * (x / y + 1) = y * (x / y) + y := by ring
  unfold roundNearestEven
  split_ifs <;> (try rw [e1]) <;> constructor <;> intro h <;> omega

theorem roundNearestEven_mono (x y x' y' : Nat) (hy : 0 < y) (hy' : 0 < y')
    (h : x * y' ≤ x' * y) : roundNearestEven x y ≤ roundNearestEven x' y' := by
  obtain ⟨s1, -⟩ := roundNearestEven_spec x y hy
  obtain ⟨-, s2'⟩ := roundNearestEven_spec x' y' hy'
  obtain ⟨t1, -⟩ := roundNearestEven_tie x y hy
  obtain ⟨-, t2'⟩ := roundNearestEven_tie x' y' hy'
  by_contra hlt
  have hq : roundNearestEven x' y' + 1 ≤ roundNearestEven x y := by omega
  have hyq : (0 : ℚ) < y := by exact_mod_cast hy
  have hyq' : (0 : ℚ) < y' := by exact_mod_cast hy'
  have s1q : (2 : ℚ) * ((y : ℚ) * (roundNearestEven x y : ℚ)) ≤ 2 * x + y := by
    exact_mod_cast s1
  have s2q : (2 : ℚ) * x' ≤ 2 * ((y' : ℚ) * (roundNearestEven x' y' : ℚ)) + y' := by
    exact_mod_cast s2'
  have hxq : (x : ℚ) * y' ≤ x' * y := by exact_mod_cast h
  have hqq : (roundNearestEven x' y' : ℚ) + 1 ≤ (roundNearestEven x y : ℚ) := by
    exact_mod_cast hq
  -- in terms of the quotients
  have a1 : (roundNearestEven x y : ℚ) ≤ (x : ℚ) / y + 1 / 2 := by
    rw [div_add_div _ _ (ne_of_gt hyq) (by norm_num), le_div_iff₀ (by positivity)]
    linarith
  have a2 : (x' : ℚ) / y' ≤ (roundNearestEven x' y' : ℚ) + 1 / 2 := by
    rw [div_le_iff₀ hyq']
    linarith
  have a3 : (x : ℚ) / y ≤ (x' : ℚ) / y' := by
    rw [div_le_div_iff₀ hyq hyq']
    exact hxq
  have e1 : (roundNearestEven x y : ℚ) = (x : ℚ) / y + 1 / 2 := by linarith
  have e2 : (x' : ℚ) / y' = (roundNearestEven x' y' : ℚ) + 1 / 2 := by linarith
  have e3 : (roundNearestEven x y : ℚ) = (roundNearestEven x' y' : ℚ) + 1 := by linarith
  have n1 : 2 * (y * roundNearestEven x y) = 2 * x + y := by
    have : (2 : ℚ) * ((y : ℚ) * (roundNearestEven x y : ℚ)) = 2 * x + y := by
      rw [e1]; field_simp; ring
    exact_mod_cast this
  have n2 : 2 * x' = 2 * (y' * roundNearestEven x' y') + y' := by
    have : (2 : ℚ) * x' = 2 * ((y' : ℚ) * (roundNearestEven x' y' : ℚ)) + y' := by
      rw [div_eq_iff (ne_of_gt hyq')] at e2
      rw [e2]; ring
    exact_mod_cast this
  have n3 : roundNearestEven x y = roundNearestEven x' y' + 1 := by exact_mod_cast e3
  have p1 := t1 n1
  have p2 := t2' n2
  omega

theorem round_binade (a b : Nat) (ha : 0 < a) (hb : 0 < b)
    (hlo : (2 : ℚ) ^ (-126 : ℤ) ≤ (a : ℚ) / b) (hhi : (a : ℚ) / b < (2 : ℚ) ^ (127 : ℤ)) :
    ∃ m : Nat, F32.round a b = F32.fin m (ratLog2 a b - 23) ∧ 2 ^ 23 ≤ m ∧ m ≤ 2 ^ 24 := by
  obtain ⟨X, Y, hY, hXY, hr⟩ := round_normal a b ha hb hlo hhi
  obtain ⟨h1, h2⟩ := ratLog2_spec a b ha hb
  have hYq : (0 : ℚ) < Y := by exact_mod_cast hY
  have hP : (0 : ℚ) < (2 : ℚ) ^ (ratLog2 a b - 23) := by positivity
  have hE : (2 : ℚ) ^ ratLog2 a b = 2 ^ (23 : ℕ) * (2 : ℚ) ^ (ratLog2 a b - 23) := by
    rw [← zpow_natCast, ← zpow_add₀ (by norm_num)]; congr 1; push_cast; ring
  have hE1 : (2 : ℚ) ^ (ratLog2 a b + 1) = 2 ^ (24 : ℕ) * (2 : ℚ) ^ (ratLog2 a b - 23) := by
    rw [← zpow_natCast, ← zpow_add₀ (by norm_num)]; congr 1; push_cast; ring
  have lo : (2 : ℚ) ^ (23 : ℕ) ≤ (X : ℚ) / Y := by
    rw [hXY, le_div_iff₀ hP, ← hE]; exact h1
  have hi : (X : ℚ) / Y ≤ (2 : ℚ) ^ (24 : ℕ) := by
    rw [hXY, div_le_iff₀ hP, ← hE1]; exact le_of_lt h2
  refine ⟨roundNearestEven X Y, hr, ?_, ?_⟩
  · have hm := roundNearestEven_mono (2 ^ 23 * 1) 1 X Y (by norm_num) hY (by
      rw [le_div_iff₀ hYq] at lo
      have : ((2 ^ 23 * 1 * Y : ℕ) : ℚ) ≤ ((X * 1 : ℕ) : ℚ) := by push_cast; linarith
      exact_mod_cast this)
    rwa [roundNearestEven_mul _ _ (by norm_num)] at hm
  · have hm := roundNearestEven_mono X Y (2 ^ 24 * 1) 1 hY (by norm_num) (by
      rw [div_le_iff₀ hYq] at hi
      have : ((X * 1 : ℕ) : ℚ) ≤ ((2 ^ 24 * 1 * Y : ℕ) : ℚ) := by push_cast; linarith
      exact_mod_cast this)
    rwa [roundNearestEven_mul _ _ (by norm_num)] at hm

/-- Rounding to binary32 is monotone on the range of the normal numbers. -/
theorem round_mono (a b a' b' : Nat) (ha : 0 < a) (hb : 0 < b) (ha' : 0 < a') (hb' : 0 < b')
    (hlo : (2 : ℚ) ^ (-126 : ℤ) ≤ (a : ℚ) / b) (hhi : (a : ℚ) / b < (2 : ℚ) ^ (127 : ℤ))
    (hlo' : (2 : ℚ) ^ (-126 : ℤ) ≤ (a' : ℚ) / b')
    (hhi' : (a' : ℚ) / b' < (2 : ℚ) ^ (127 : ℤ))
    (h : (a : ℚ) / b ≤ (a' : ℚ) / b') :
    ∃ (m m' : Nat) (s s' : ℤ), F32.round a b = F32.fin m s ∧ F32.round a' b' = F32.fin m' s' ∧
      (m : ℚ) * (2 : ℚ) ^ s ≤ (m' : ℚ) * (2 : ℚ) ^ s' := by
  obtain ⟨h1, h2⟩ := ratLog2_spec a b ha hb
  obtain ⟨h1', h2'⟩ := ratLog2_spec a' b' ha' hb'
  have hEE : ratLog2 a b ≤ ratLog2 a' b' := by
    have : (2 : ℚ) ^ ratLog2 a b < (2 : ℚ) ^ (ratLog2 a' b' + 1) :=
      lt_of_le_of_lt (le_trans h1 h) h2'
    have := (zpow_lt_zpow_iff_right₀ (by norm_num : (1 : ℚ) < 2)).1 this
    omega
  rcases eq_or_lt_of_le hEE with heq | hlt
  · obtain ⟨X, Y, hY, hXY, hr⟩ := round_normal a b ha hb hlo hhi
    obtain ⟨X', Y', hY', hXY', hr'⟩ := round_normal a' b' ha' hb' hlo' hhi'
    have hYq : (0 : ℚ) < Y := by exact_mod_cast hY
    have hYq' : (0 : ℚ) < Y' := by exact_mod_cast hY'
    have hP : (0 : ℚ) < (2 : ℚ) ^ (ratLog2 a' b' - 23) := by positivity
    rw [heq] at hXY hr
    have hq : (X : ℚ) / Y ≤ (X' : ℚ) / Y' := by
      rw [hXY, hXY']
      exact div_le_div_of_nonneg_right h (le_of_lt hP)
    have hn : X * Y' ≤ X' * Y := by
      rw [div_le_div_iff₀ hYq hYq'] at hq
      exact_mod_cast hq
    have hm := roundNearestEven_mono X Y X' Y' hY hY' hn
    refine ⟨_, _, _, _, hr, hr', ?_⟩
    exact mul_le_mul_of_nonneg_right (by exact_mod_cast hm) (le_of_lt hP)
  · obtain ⟨m, hr, -, hm⟩ := round_binade a b ha hb hlo hhi
    obtain ⟨m', hr', hm', -⟩ := round_binade a' b' ha' hb' hlo' hhi'
    refine ⟨m, m', _, _, hr, hr', ?_⟩
    have hmq : (m : ℚ) ≤ (2 : ℚ) ^ (24 : ℕ) := by exact_mod_cast hm
    have hmq' : (2 : ℚ) ^ (23 : ℕ) ≤ (m' : ℚ) := by exact_mod_cast hm'
    have hE1 : (2 : ℚ) ^ (ratLog2 a b + 1) = 2 ^ (24 : ℕ) * (2 : ℚ) ^ (ratLog2 a b - 23) := by
      rw [← zpow_natCast, ← zpow_add₀ (by norm_num)]; congr 1; push_cast; ring
    have hE' : (2 : ℚ) ^ ratLog2 a' b' = 2 ^ (23 : ℕ) * (2 : ℚ) ^ (ratLog2 a' b' - 23) := by
      rw [← zpow_natCast, ← zpow_add₀ (by norm_num)]; congr 1; push_cast; ring
    have hstep : (2 : ℚ) ^ (ratLog2 a b + 1) ≤ (2 : ℚ) ^ ratLog2 a' b' :=
      (zpow_le_zpow_iff_right₀ (by norm_num : (1 : ℚ) < 2)).2 (by omega)
    calc (m : ℚ) * (2 : ℚ) ^ (ratLog2 a b - 23)
        ≤ 2 ^ (24 : ℕ) * (2 : ℚ) ^ (ratLog2 a b - 23) :=
          mul_le_mul_of_nonneg_right hmq (by positivity)
      _ = (2 : ℚ) ^ (ratLog2 a b + 1) := hE1.symm
      _ ≤ (2 : ℚ) ^ ratLog2 a' b' := hstep
      _ = 2 ^ (23 : ℕ) * (2 : ℚ) ^ (ratLog2 a' b' - 23) := hE'
      _ ≤ (m' : ℚ) * (2 : ℚ) ^ (ratLog2 a' b' - 23) :=
          mul_le_mul_of_nonneg_right hmq' (by positivity)

theorem nat_range (n : Nat) (h0 : 0 < n) (h : n < 2 ^ 32) :
    (2 : ℚ) ^ (-126 : ℤ) ≤ (n : ℚ) / (1 : ℕ) ∧ (n : ℚ) / (1 : ℕ) < (2 : ℚ) ^ (127 : ℤ) := by
  have h' : n < 4294967296 := by norm_num at h; exact h
  have h1 : (1 : ℚ) ≤ n := by exact_mod_cast h0
  have h2 : (n : ℚ) < 4294967296 := by exact_mod_cast h'
  constructor
  · norm_num; linarith
  · norm_num; linarith

theorem ofUInt32_value (n : Nat) (h0 : 0 < n) (h : n < 2 ^ 32) :
    ∃ (m : Nat) (s : ℤ), F32.ofUInt32 n = F32.fin m s ∧ m ≠ 0 ∧
      1 ≤ (m : ℚ) * (2 : ℚ) ^ s ∧ (m : ℚ) * (2 : ℚ) ^ s ≤ 2 ^ (32 : ℤ) := by
  obtain ⟨hlo, hhi⟩ := nat_range n h0 h
  obtain ⟨m, hr, hm1, hm2⟩ := round_binade n 1 h0 (by norm_num) hlo hhi
  obtain ⟨h1, h2⟩ := ratLog2_spec n 1 h0 (by norm_num)
  have h' : n < 4294967296 := by norm_num at h; exact h
  have hn1 : (1 : ℚ) ≤ n := by exact_mod_cast h0
  have hn2 : (n : ℚ) < 4294967296 := by exact_mod_cast h'
  simp only [Nat.cast_one, div_one] at h1 h2
  have hE0 : 0 ≤ ratLog2 n 1 := by
    have : (2 : ℚ) ^ (0 : ℤ) < (2 : ℚ) ^ (ratLog2 n 1 + 1) := by
      rw [zpow_zero]; linarith
    have := (zpow_lt_zpow_iff_right₀ (by norm_num : (1 : ℚ) < 2)).1 this
    omega
  have hE1 : ratLog2 n 1 + 1 ≤ 32 := by
    have : (2 : ℚ) ^ ratLog2 n 1 < (2 : ℚ) ^ (32 : ℤ) := by
      norm_num; linarith
    have := (zpow_lt_zpow_iff_right₀ (by norm_num : (1 : ℚ) < 2)).1 this
    omega
  have hmq1 : (2 : ℚ) ^ (23 : ℕ) ≤ (m : ℚ) := by exact_mod_cast hm1
  have hmq2 : (m : ℚ) ≤ (2 : ℚ) ^ (24 : ℕ) := by exact_mod_cast hm2
  have hE : (2 : ℚ) ^ ratLog2 n 1 = 2 ^ (23 : ℕ) * (2 : ℚ) ^ (ratLog2 n 1 - 23) := by
    rw [← zpow_natCast, ← zpow_add₀ (by norm_num)]; congr 1; push_cast; ring
  have hE' : (2 : ℚ) ^ (ratLog2 n 1 + 1) = 2 ^ (24 : ℕ) * (2 : ℚ) ^ (ratLog2 n 1 - 23) := by
    rw [← zpow_natCast, ← zpow_add₀ (by norm_num)]; congr 1; push_cast; ring
  refine ⟨m, _, hr, ?_, ?_, ?_⟩
  · intro hz
    rw [hz] at hm1
    norm_num at hm1
  · calc (1 : ℚ) = (2 : ℚ) ^ (0 : ℤ) := by norm_num
      _ ≤ (2 : ℚ) ^ ratLog2 n 1 :=
          (zpow_le_zpow_iff_right₀ (by norm_num : (1 : ℚ) < 2)).2 hE0
      _ = 2 ^ (23 : ℕ) * (2 : ℚ) ^ (ratLog2 n 1 - 23) := hE
      _ ≤ (m : ℚ) * (2 : ℚ) ^ (ratLog2 n 1 - 23) :=
          mul_le_mul_of_nonneg_right hmq1 (by positivity)
  · calc (m : ℚ) * (2 : ℚ) ^ (ratLog2 n 1 - 23)
        ≤ 2 ^ (24 : ℕ) * (2 : ℚ) ^ (ratLog2 n 1 - 23) :=
          mul_le_mul_of_nonneg_right hmq2 (by positivity)
      _ = (2 : ℚ) ^ (ratLog2 n 1 + 1) := hE'.symm
      _ ≤ (2 : ℚ) ^ (32 : ℤ) :=
          (zpow_le_zpow_iff_right₀ (by norm_num : (1 : ℚ) < 2)).2 hE1

theorem ofUInt32_mono (n n' : Nat) (h0 : 0 < n) (hle : n ≤ n') (h : n' < 2 ^ 32) :
    ∃ (m m' : Nat) (s s' : ℤ), F32.ofUInt32 n = F32.fin m s ∧ F32.ofUInt32 n' = F32.fin m' s' ∧
      (m : ℚ) * (2 : ℚ) ^ s ≤ (m' : ℚ) * (2 : ℚ) ^ s' := by
  obtain ⟨hlo, hhi⟩ := nat_range n h0 (lt_of_le_of_lt hle h)
  obtain ⟨hlo', hhi'⟩ := nat_range n' (lt_of_lt_of_le h0 hle) h
  exact round_mono n 1 n' 1 h0 (by norm_num) (lt_of_lt_of_le h0 hle) (by norm_num)
    hlo hhi hlo' hhi' (by
      simp only [Nat.cast_one, div_one]
      exact_mod_cast hle)

theorem ge_of_le (m m' : Nat) (s s' : ℤ) (g : F32)
    (hle : (m : ℚ) * (2 : ℚ) ^ s ≤ (m' : ℚ) * (2 : ℚ) ^ s')
    (h : F32.ge (F32.fin m s) g = true) : F32.ge (F32.fin m' s') g = true := by
  cases g with
  | fin mg eg =>
    rw [ge_fin_iff] at h ⊢
    exact le_trans h hle
  | inf => simp [F32.ge] at h
  | nan => simp [F32.ge] at h

/-- The ratio computed by `checkForAttack` is monotone in the sum: a larger sum
reaches every threshold that a smaller sum reaches. -/
theorem expireRatio_mono (t t' c : Nat) (hle : t ≤ t') (ht' : t' < 2 ^ 32) (hc0 : 0 < c)
    (hc : c < 2 ^ 32) (g : F32) (h : F32.ge (expireRatio t c) g = true) :
    F32.ge (expireRatio t' c) g = true := by
  obtain ⟨m2, s2, h2, n2, lo2, hi2⟩ := ofUInt32_value c hc0 hc
  have hv2 : (0 : ℚ) < (m2 : ℚ) * (2 : ℚ) ^ s2 := by linarith
  have hz : F32.ofUInt32 0 = F32.fin 0 0 := round_zero 1
  -- the quotient of two converted integers is in the range of the normal numbers
  have range : ∀ (m1 : Nat) (s1 : ℤ), 1 ≤ (m1 : ℚ) * (2 : ℚ) ^ s1 →
      (m1 : ℚ) * (2 : ℚ) ^ s1 ≤ 2 ^ (32 : ℤ) →
      (2 : ℚ) ^ (-126 : ℤ) ≤ (m1 : ℚ) * (2 : ℚ) ^ s1 / ((m2 : ℚ) * (2 : ℚ) ^ s2) ∧
      (m1 : ℚ) * (2 : ℚ) ^ s1 / ((m2 : ℚ) * (2 : ℚ) ^ s2) < (2 : ℚ) ^ (127 : ℤ) := by
    intro m1 s1 lo1 hi1
    constructor
    · rw [le_div_iff₀ hv2]
      norm_num at hi2 ⊢
      linarith
    · rw [div_lt_iff₀ hv2]
      norm_num at hi1 ⊢
      linarith
  rcases Nat.eq_zero_or_pos t' with rfl | ht0'
  · have : t = 0 := by omega
    subst this
    exact h
  · obtain ⟨m1', s1', h1', n1', lo1', hi1'⟩ := ofUInt32_value t' ht0' ht'
    obtain ⟨A', B', hB', hA', -, hAB', hd'⟩ := div_fin m1' m2 s1' s2 n2
    obtain ⟨rlo', rhi'⟩ := range m1' s1' lo1' hi1'
    rw [← hAB'] at rlo' rhi'
    rcases Nat.eq_zero_or_pos t with rfl | ht0
    · obtain ⟨A, B, -, -, hA, -, hd⟩ := div_fin 0 m2 0 s2 n2
      obtain ⟨m', hr', -, -⟩ := round_binade A' B' (hA' n1') hB' rlo' rhi'
      have e0 : expireRatio 0 c = F32.fin 0 0 := by
        unfold expireRatio
        rw [hz, h2, hd, hA rfl, round_zero]
      have e1 : expireRatio t' c = F32.fin m' (ratLog2 A' B' - 23) := by
        unfold expireRatio
        rw [h1', h2, hd', hr']
      rw [e0] at h
      rw [e1]
      refine ge_of_le 0 m' 0 _ g ?_ h
      simp only [Nat.cast_zero, zero_mul]
      positivity
    · obtain ⟨m1, m1'', s1, s1'', h1, h1'', hmono⟩ := ofUInt32_mono t t' ht0 hle ht'
      rw [h1'] at h1''
      cases h1''
      obtain ⟨m1b, s1b, h1b, n1, lo1, hi1⟩ := ofUInt32_value t ht0 (lt_of_le_of_lt hle ht')
      rw [h1] at h1b
      cases h1b
      obtain ⟨A, B, hB, hA, -, hAB, hd⟩ := div_fin m1 m2 s1 s2 n2
      obtain ⟨rlo, rhi⟩ := range m1 s1 lo1 hi1
      rw [← hAB] at rlo rhi
      have hq : (A : ℚ) / B ≤ (A' : ℚ) / B' := by
        rw [hAB, hAB']
        exact div_le_div_of_nonneg_right hmono (le_of_lt hv2)
      obtain ⟨m, m', s, s', hr, hr', hval⟩ :=
        round_mono A B A' B' (hA n1) hB (hA' n1') hB' rlo rhi rlo' rhi' hq
      have e0 : expireRatio t c = F32.fin m s := by
        unfold expireRatio
        rw [h1, h2, hd, hr]
      have e1 : expireRatio t' c = F32.fin m' s' := by
        unfold expireRatio
        rw [h1', h2, hd', hr']
      rw [e0] at h
      rw [e1]
      exact ge_of_le m m' s s' g hval h

end FloatFacts

end ns3.ndn

namespace ns3.ndn

/-! ## Facts about `checkForAttack`, `report` and `print` -/

section ToldFacts

variable {Name : Type}

theorem toldIn_some (calls : List (Handle × Finset Name)) (h : Handle) (S : Finset Name)
    (ht : toldIn calls h = some S) : (h, S) ∈ calls := by
  unfold toldIn at ht
  cases hf : calls.reverse.find? (fun d => d.1 = h) with
  | none => rw [hf] at ht; exact Option.noConfusion ht
  | some d =>
    rw [hf] at ht
    have hp := List.find?_some hf
    have hm := List.mem_of_find?_eq_some hf
    simp only [Option.map_some', Option.some.injEq] at ht
    simp only [decide_eq_true_eq] at hp
    obtain ⟨d1, d2⟩ := d
    simp only at ht hp
    subst ht hp
    exact List.mem_reverse.1 hm

theorem toldIn_ne_none (calls : List (Handle × Finset Name)) (h : Handle) (S : Finset Name)
    (hm : (h, S) ∈ calls) : toldIn calls h ≠ none := by
  unfold toldIn
  intro hn
  rw [Option.map_eq_none', List.find?_eq_none] at hn
  have := hn (h, S) (List.mem_reverse.2 hm)
  simp at this

end ToldFacts

section ControllerFacts

variable {Name : Type} [LinearOrder Name]

theorem maliciousPrefixes_congr (a b : CC Name) (h1 : a.lastReports = b.lastReports)
    (h2 : a.pitSize = b.pitSize) (h3 : a.gamma = b.gamma) :
    maliciousPrefixes a = maliciousPrefixes b := by
  unfold maliciousPrefixes
  rw [h1, h2, h3]

theorem checkForAttack_lastReportedPrefixes (sz : Nat) (cc : CC Name) :
    (checkForAttack sz cc).1.lastReportedPrefixes = maliciousPrefixes cc := by
  unfold checkForAttack
  split_ifs with h
  · rfl
  · exact (not_not.1 h).symm

theorem checkForAttack_frame (sz : Nat) (cc : CC Name) :
    (checkForAttack sz cc).1.lastReports = cc.lastReports ∧
    (checkForAttack sz cc).1.pitSize = cc.pitSize ∧
    (checkForAttack sz cc).1.gamma = cc.gamma ∧
    (checkForAttack sz cc).1.monitors = cc.monitors ∧
    (checkForAttack sz cc).1.reportsCurrentPeriod = cc.reportsCurrentPeriod ∧
    (checkForAttack sz cc).1.numMessagesReceived = cc.numMessagesReceived := by
  unfold checkForAttack
  split_ifs with h <;> simp

theorem checkForAttack_calls (sz : Nat) (cc : CC Name) :
    (checkForAttack sz cc).2 =
      if maliciousPrefixes cc ≠ cc.lastReportedPrefixes then
        cc.monitors.entries.map (fun it => (it.2, maliciousPrefixes cc))
      else [] := by
  unfold checkForAttack
  split_ifs <;> rfl

theorem report_eq (sz : Nat) (cc : CC Name) (node : Node) (r : CNMRReport Name) :
    report sz cc node r = checkForAttack sz (stored sz cc node r) := by
  unfold report stored
  simp only []
  split_ifs <;> rfl

theorem maliciousPrefixes_report (sz : Nat) (cc : CC Name) (node : Node)
    (r : CNMRReport Name) :
    maliciousPrefixes (report sz cc node r).1 = maliciousPrefixes (stored sz cc node r) := by
  rw [report_eq]
  exact maliciousPrefixes_congr _ _ (checkForAttack_frame sz _).1
    (checkForAttack_frame sz _).2.1 (checkForAttack_frame sz _).2.2.1

theorem report_lastReports (sz : Nat) (cc : CC Name) (node : Node) (r : CNMRReport Name) :
    (report sz cc node r).1.lastReports = cc.lastReports.assign node.id r := by
  rw [report_eq, (checkForAttack_frame sz _).1]
  rfl

theorem report_config (sz : Nat) (cc : CC Name) (node : Node) (r : CNMRReport Name) :
    (report sz cc node r).1.pitSize = cc.pitSize ∧ (report sz cc node r).1.gamma = cc.gamma := by
  rw [report_eq, (checkForAttack_frame sz _).2.1, (checkForAttack_frame sz _).2.2.1]
  exact ⟨rfl, rfl⟩

theorem report_lastReportedPrefixes (sz : Nat) (cc : CC Name) (node : Node)
    (r : CNMRReport Name) :
    (report sz cc node r).1.lastReportedPrefixes = maliciousPrefixes (report sz cc node r).1 := by
  rw [maliciousPrefixes_report, report_eq, checkForAttack_lastReportedPrefixes]

theorem stored_monitors_ne_nil (sz : Nat) (cc : CC Name) (node : Node) (r : CNMRReport Name) :
    (stored sz cc node r).monitors.entries ≠ [] := by
  unfold stored
  simp only []
  split_ifs with h
  · intro hnil
    have hpos := StdMap.size_assign_pos cc.monitors node.id node.routing
    unfold StdMap.size at hpos
    rw [hnil] at hpos
    exact Nat.lt_irrefl 0 hpos
  · intro hnil
    apply h
    unfold StdMap.find
    rw [hnil]
    rfl

theorem report_calls (sz : Nat) (cc : CC Name) (node : Node) (r : CNMRReport Name) :
    (report sz cc node r).2 =
      if maliciousPrefixes (report sz cc node r).1 ≠ cc.lastReportedPrefixes then
        (stored sz cc node r).monitors.entries.map
          (fun it => (it.2, maliciousPrefixes (report sz cc node r).1))
      else [] := by
  rw [maliciousPrefixes_report, report_eq, checkForAttack_calls]
  rfl

theorem report_calls_eq_nil_iff (sz : Nat) (cc : CC Name) (node : Node)
    (r : CNMRReport Name) :
    (report sz cc node r).2 = [] ↔
      maliciousPrefixes (report sz cc node r).1 = cc.lastReportedPrefixes := by
  rw [report_calls]
  split_ifs with h
  · have hne := stored_monitors_ne_nil sz cc node r
    simp [hne, h]
  · simp [not_not.1 h]

theorem report_calls_head (sz : Nat) (cc : CC Name) (node : Node) (r : CNMRReport Name) :
    (report sz cc node r).2.head?.map Prod.snd =
      if maliciousPrefixes (report sz cc node r).1 ≠ cc.lastReportedPrefixes then
        some (maliciousPrefixes (report sz cc node r).1)
      else none := by
  rw [report_calls]
  split_ifs with h
  · have hne := stored_monitors_ne_nil sz cc node r
    cases hE : (stored sz cc node r).monitors.entries with
    | nil => exact absurd hE hne
    | cons hd tl => simp
  · rfl

theorem print_frame (cc : CC Name) (now : Nat) :
    (print cc now).1.lastReports = cc.lastReports ∧
    (print cc now).1.monitors = cc.monitors ∧
    (print cc now).1.lastReportedPrefixes = cc.lastReportedPrefixes ∧
    (print cc now).1.pitSize = cc.pitSize ∧
    (print cc now).1.gamma = cc.gamma := by
  unfold print
  split_ifs <;> simp

theorem step_lastReports_keys (sz : Nat) (cc : CC Name) (ev : Event Name) (m : Nat) :
    m ∈ (step sz cc ev).1.lastReports.keys ↔
      m ∈ cc.lastReports.keys ∨ ∃ node r, ev = Event.report node r ∧ node.id = m := by
  cases ev with
  | report node r =>
    simp only [step, report_lastReports, StdMap.mem_keys_assign, Event.report.injEq]
    constructor
    · rintro (h | h)
      · exact Or.inr ⟨node, r, ⟨rfl, rfl⟩, h.symm⟩
      · exact Or.inl h
    · rintro (h | ⟨node', r', ⟨h1, _⟩, h2⟩)
      · exact Or.inr h
      · subst h1; exact Or.inl h2.symm
  | timer now =>
    simp only [step, onTimerPrint, (print_frame cc now).1]
    simp

theorem run_lastReports_keys (sz : Nat) (cc : CC Name) (evs : List (Event Name)) (m : Nat) :
    m ∈ (run sz cc evs).1.lastReports.keys ↔
      m ∈ cc.lastReports.keys ∨ ∃ node r, Event.report node r ∈ evs ∧ node.id = m := by
  induction evs generalizing cc with
  | nil => simp [run]
  | cons ev rest ih =>
    simp only [run, ih, step_lastReports_keys, List.mem_cons]
    constructor
    · rintro ((h | ⟨node, r, h1, h2⟩) | ⟨node, r, h1, h2⟩)
      · exact Or.inl h
      · exact Or.inr ⟨node, r, Or.inl h1.symm, h2⟩
      · exact Or.inr ⟨node, r, Or.inr h1, h2⟩
    · rintro (h | ⟨node, r, h1 | h1, h2⟩)
      · exact Or.inl (Or.inl h)
      · exact Or.inl (Or.inr ⟨node, r, h1.symm, h2⟩)
      · exact Or.inr ⟨node, r, h1, h2⟩

theorem report_numMessagesReceived (sz : Nat) (cc : CC Name) (node : Node)
    (r : CNMRReport Name) :
    (report sz cc node r).1.numMessagesReceived =
      ((cc.numMessagesReceived + 1) % 2 ^ 32 + 1) % 2 ^ 32 := by
  rw [report_eq, (checkForAttack_frame sz _).2.2.2.2.2]
  rfl

theorem step_head (sz : Nat) (cc : CC Name) (ev : Event Name) :
    ((step sz cc ev).2.head?.map Prod.snd = none ∧
      (step sz cc ev).1.lastReportedPrefixes = cc.lastReportedPrefixes) ∨
    (∃ S, (step sz cc ev).2.head?.map Prod.snd = some S ∧ S ≠ cc.lastReportedPrefixes ∧
      (step sz cc ev).1.lastReportedPrefixes = S) := by
  cases ev with
  | report node r =>
    simp only [step]
    rw [report_calls_head, report_lastReportedPrefixes]
    split_ifs with h
    · exact Or.inr ⟨_, rfl, h, rfl⟩
    · exact Or.inl ⟨rfl, not_not.1 h⟩
  | timer now =>
    exact Or.inl ⟨rfl, (print_frame cc now).2.2.1⟩

theorem chain_dispatchedSets (sz : Nat) (cc : CC Name) (evs : List (Event Name)) :
    List.Chain (· ≠ ·) cc.lastReportedPrefixes (dispatchedSets (run sz cc evs).2) := by
  induction evs generalizing cc with
  | nil => exact List.Chain.nil
  | cons ev rest ih =>
    have hrun : (run sz cc (ev :: rest)).2 =
        (step sz cc ev).2 :: (run sz (step sz cc ev).1 rest).2 := rfl
    rw [hrun]
    unfold dispatchedSets
    rw [List.filterMap_cons]
    rcases step_head sz cc ev with ⟨h1, h2⟩ | ⟨S, h1, h2, h3⟩
    · simp only [h1]
      rw [← h2]
      exact ih (step sz cc ev).1
    · simp only [h1]
      refine List.Chain.cons (Ne.symm h2) ?_
      rw [← h3]
      exact ih (step sz cc ev).1

theorem mem_checkForAttack_iff (sz : Nat) (cc : CC Name) (n : Name) :
    n ∈ (checkForAttack sz cc).1.lastReportedPrefixes ↔
      isReported cc.lastReports n ∧
      F32.ge (expireRatio (reportedTotal cc.lastReports n % 2 ^ 32) cc.pitSize) cc.gamma
        = true := by
  rw [checkForAttack_lastReportedPrefixes]
  exact mem_maliciousPrefixes cc n

theorem roundDouble_of_lt (n : Nat) (h : n < 2 ^ 53) : roundDouble n = n := by
  unfold roundDouble
  rw [if_pos h]

theorem dadd_of_lt (x y : Nat) (h : x + y < 2 ^ 53) : dadd x y = x + y :=
  roundDouble_of_lt (x + y) h

theorem getSizeReport_eq (sz : Nat) (r : CNMRReport Name)
    (h : sz + 4 + r.timedOutEntriesPerName.size * (sz + 4) < 2 ^ 53) :
    getSizeReport sz r = sz + 4 + r.timedOutEntriesPerName.size * (sz + 4) := by
  have hlt : (2 : Nat) ^ 53 < 2 ^ 64 := by norm_num
  have h1 : 1 * sz % 2 ^ 64 = sz := by
    rw [Nat.one_mul]; exact Nat.mod_eq_of_lt (by omega)
  have h2 : (sz + 4) % 2 ^ 64 = sz + 4 := Nat.mod_eq_of_lt (by omega)
  have h3 : r.timedOutEntriesPerName.size * (sz + 4) % 2 ^ 64 =
      r.timedOutEntriesPerName.size * (sz + 4) := Nat.mod_eq_of_lt (by omega)
  unfold getSizeReport
  rw [h1, h2, h3, roundDouble_of_lt sz (by omega), roundDouble_of_lt (1 * 4) (by norm_num),
    roundDouble_of_lt _ (by omega), dadd_of_lt 0 sz (by omega), Nat.zero_add,
    dadd_of_lt sz (1 * 4) (by omega), dadd_of_lt _ _ (by omega)]

theorem checkForAttack_received (sz : Nat) (cc : CC Name) :
    (checkForAttack sz cc).1.sizeMessagesReceived = cc.sizeMessagesReceived := by
  unfold checkForAttack
  split_ifs <;> rfl

theorem report_sizeMessagesReceived (sz : Nat) (cc : CC Name) (node : Node)
    (r : CNMRReport Name) :
    (report sz cc node r).1.sizeMessagesReceived =
      dadd cc.sizeMessagesReceived (getSizeReport sz r) := by
  rw [report_eq, checkForAttack_received]
  rfl

theorem report_monitors (sz : Nat) (cc : CC Name) (node : Node) (r : CNMRReport Name) :
    (report sz cc node r).1.monitors =
      if cc.monitors.find node.id = none then cc.monitors.assign node.id node.routing
      else cc.monitors := by
  rw [report_eq, (checkForAttack_frame sz _).2.2.2.1]
  rfl

theorem report_monitors_find (sz : Nat) (cc : CC Name) (node : Node) (r : CNMRReport Name)
    (m : Nat) :
    (report sz cc node r).1.monitors.find m =
      if m = node.id then some ((cc.monitors.find m).getD node.routing)
      else cc.monitors.find m := by
  rw [report_monitors]
  by_cases hm : m = node.id
  · subst hm
    rw [if_pos rfl]
    cases hf : cc.monitors.find node.id with
    | none => rw [if_pos rfl, StdMap.find_assign, if_pos rfl]; rfl
    | some h => rw [if_neg (by simp), hf]; rfl
  · rw [if_neg hm]
    split_ifs with hf
    · rw [StdMap.find_assign, if_neg hm]
    · rfl

theorem step_monitors_find (sz : Nat) (cc : CC Name) (ev : Event Name) (m : Nat) (h : Handle)
    (hf : cc.monitors.find m = some h) : (step sz cc ev).1.monitors.find m = some h := by
  cases ev with
  | report node r =>
    simp only [step]
    rw [report_monitors_find]
    split_ifs with hm
    · rw [hf]; rfl
    · exact hf
  | timer now =>
    simp only [step, onTimerPrint, (print_frame cc now).2.1]
    exact hf

theorem run_monitors_find (sz : Nat) (cc : CC Name) (evs : List (Event Name)) (m : Nat)
    (h : Handle) (hf : cc.monitors.find m = some h) :
    (run sz cc evs).1.monitors.find m = some h := by
  induction evs generalizing cc with
  | nil => exact hf
  | cons ev rest ih => exact ih (step sz cc ev).1 (step_monitors_find sz cc ev m h hf)

theorem maliciousPrefixes_print (cc : CC Name) (now : Nat) :
    maliciousPrefixes (print cc now).1 = maliciousPrefixes cc :=
  maliciousPrefixes_congr _ _ (print_frame cc now).1 (print_frame cc now).2.2.2.1
    (print_frame cc now).2.2.2.2

theorem report_monitors_eq_stored (sz : Nat) (cc : CC Name) (node : Node)
    (r : CNMRReport Name) :
    (report sz cc node r).1.monitors = (stored sz cc node r).monitors := by
  rw [report_eq, (checkForAttack_frame sz _).2.2.2.1]

/-- A call made by a step passes the set announced after the step to a monitor
registered after the step. -/
theorem step_calls_mem (sz : Nat) (cc : CC Name) (ev : Event Name) (h : Handle)
    (S : Finset Name) (hm : (h, S) ∈ (step sz cc ev).2) :
    S = (step sz cc ev).1.lastReportedPrefixes ∧
      ∃ m, (step sz cc ev).1.monitors.find m = some h := by
  cases ev with
  | report node r =>
    simp only [step] at hm ⊢
    rw [report_calls] at hm
    split_ifs at hm with hchg
    · rw [List.mem_map] at hm
      obtain ⟨⟨m, h'⟩, hmem, heq⟩ := hm
      simp only [Prod.mk.injEq] at heq
      obtain ⟨rfl, rfl⟩ := heq
      refine ⟨(report_lastReportedPrefixes sz cc node r).symm, m, ?_⟩
      rw [report_monitors_eq_stored]
      exact (StdMap.mem_entries_iff _ m h').1 hmem
    · simp at hm
  | timer now => simp [step] at hm

/-- A step that makes no call on a registered monitor announces nothing. -/
theorem step_silent (sz : Nat) (cc : CC Name) (ev : Event Name) (h : Handle) (m : Nat)
    (hreg : cc.monitors.find m = some h) (hn : toldIn (step sz cc ev).2 h = none) :
    (step sz cc ev).1.lastReportedPrefixes = cc.lastReportedPrefixes := by
  cases ev with
  | report node r =>
    simp only [step] at hn ⊢
    by_cases hchg : maliciousPrefixes (report sz cc node r).1 ≠ cc.lastReportedPrefixes
    · exfalso
      have hreg' : (stored sz cc node r).monitors.find m = some h := by
        rw [← report_monitors_eq_stored]
        exact step_monitors_find sz cc (Event.report node r) m h hreg
      have hmem : (h, maliciousPrefixes (report sz cc node r).1) ∈ (report sz cc node r).2 := by
        rw [report_calls, if_pos hchg, List.mem_map]
        exact ⟨(m, h), (StdMap.mem_entries_iff _ m h).2 hreg', rfl⟩
      exact toldIn_ne_none _ h _ hmem hn
    · rw [report_lastReportedPrefixes]
      exact not_not.1 hchg
  | timer now => exact (print_frame cc now).2.2.1

theorem run_silent (sz : Nat) (cc : CC Name) (evs : List (Event Name)) (h : Handle) (m : Nat)
    (hreg : cc.monitors.find m = some h) (hn : lastTold (run sz cc evs).2 h = none) :
    (run sz cc evs).1.lastReportedPrefixes = cc.lastReportedPrefixes := by
  induction evs generalizing cc with
  | nil => rfl
  | cons ev rest ih =>
    have hrun : (run sz cc (ev :: rest)).2 =
        (step sz cc ev).2 :: (run sz (step sz cc ev).1 rest).2 := rfl
    rw [hrun] at hn
    unfold lastTold at hn
    cases hl : lastTold (run sz (step sz cc ev).1 rest).2 h with
    | some S => rw [hl] at hn; exact Option.noConfusion hn
    | none =>
      rw [hl] at hn
      simp only at hn
      have h1 := ih (step sz cc ev).1 (step_monitors_find sz cc ev m h hreg) hl
      have h2 := step_silent sz cc ev h m hreg hn
      show (run sz (step sz cc ev).1 rest).1.lastReportedPrefixes = cc.lastReportedPrefixes
      rw [h1, h2]

/-- What a monitor was last told in a run is the set announced at its end. -/
theorem lastTold_eq (sz : Nat) (cc : CC Name) (evs : List (Event Name)) (h : Handle)
    (S : Finset Name) (ht : lastTold (run sz cc evs).2 h = some S) :
    S = (run sz cc evs).1.lastReportedPrefixes := by
  induction evs generalizing cc with
  | nil => exact Option.noConfusion ht
  | cons ev rest ih =>
    have hrun : (run sz cc (ev :: rest)).2 =
        (step sz cc ev).2 :: (run sz (step sz cc ev).1 rest).2 := rfl
    rw [hrun] at ht
    unfold lastTold at ht
    show S = (run sz (step sz cc ev).1 rest).1.lastReportedPrefixes
    cases hl : lastTold (run sz (step sz cc ev).1 rest).2 h with
    | some S' =>
      rw [hl] at ht
      simp only [Option.some.injEq] at ht
      subst ht
      exact ih (step sz cc ev).1 hl
    | none =>
      rw [hl] at ht
      simp only at ht
      obtain ⟨hS, m, hreg⟩ := step_calls_mem sz cc ev h S (toldIn_some _ h S ht)
      rw [run_silent sz (step sz cc ev).1 rest h m hreg hl]
      exact hS

theorem step_invariant (sz : Nat) (cc : CC Name) (ev : Event Name)
    (hI : cc.lastReportedPrefixes = maliciousPrefixes cc) :
    (step sz cc ev).1.lastReportedPrefixes = maliciousPrefixes (step sz cc ev).1 := by
  cases ev with
  | report node r => exact report_lastReportedPrefixes sz cc node r
  | timer now =>
    simp only [step, onTimerPrint]
    rw [(print_frame cc now).2.2.1, maliciousPrefixes_print]
    exact hI

theorem run_invariant (sz : Nat) (cc : CC Name) (evs : List (Event Name))
    (hI : cc.lastReportedPrefixes = maliciousPrefixes cc) :
    (run sz cc evs).1.lastReportedPrefixes = maliciousPrefixes (run sz cc evs).1 := by
  induction evs generalizing cc with
  | nil => exact hI
  | cons ev rest ih => exact ih (step sz cc ev).1 (step_invariant sz cc ev hI)

theorem new_invariant (p g1 g2 c1 c2 c3 c4 c5 : Nat) :
    (CC.new p g1 g2 c1 c2 c3 c4 c5 : CC Name).lastReportedPrefixes =
      maliciousPrefixes (CC.new p g1 g2 c1 c2 c3 c4 c5 : CC Name) := rfl

theorem report_congr (sz : Nat) (a b : CC Name) (node : Node) (r : CNMRReport Name)
    (h1 : a.lastReports = b.lastReports) (h2 : a.pitSize = b.pitSize) (h3 : a.gamma = b.gamma)
    (h4 : a.monitors = b.monitors) (h5 : a.lastReportedPrefixes = b.lastReportedPrefixes) :
    (report sz a node r).2 = (report sz b node r).2 ∧
    (report sz a node r).1.lastReportedPrefixes = (report sz b node r).1.lastReportedPrefixes ∧
    (report sz a node r).1.lastReports = (report sz b node r).1.lastReports := by
  have hmap : (report sz a node r).1.lastReports = (report sz b node r).1.lastReports := by
    rw [report_lastReports, report_lastReports, h1]
  have hmal : maliciousPrefixes (report sz a node r).1 =
      maliciousPrefixes (report sz b node r).1 :=
    maliciousPrefixes_congr _ _ hmap
      (by rw [(report_config sz a node r).1, (report_config sz b node r).1, h2])
      (by rw [(report_config sz a node r).2, (report_config sz b node r).2, h3])
  have hmon : (stored sz a node r).monitors = (stored sz b node r).monitors := by
    unfold stored
    simp only [h4]
  refine ⟨?_, ?_, hmap⟩
  · rw [report_calls, report_calls, hmal, h5, hmon]
  · rw [report_lastReportedPrefixes, report_lastReportedPrefixes, hmal]

end ControllerFacts

end ns3.ndn

namespace ns3.ndn

/-! ## The properties of the controller -/

section Claims

variable {Name : Type} [LinearOrder Name]

set_option maxRecDepth 100000

/-- C1 (as amended). The set that `checkForAttack` computes and announces holds
exactly the names that occur in the last report of at least one monitor and
whose single-precision ratio `(float)(T mod 2^32) / pitSize` is at least
`gamma`, where `T` is the sum, over all monitors, of the count that the last
report of the monitor gives for the name. -/
theorem C1_checkForAttack_malicious_iff (sz : Nat) (cc : CC Name) (n : Name) :
    n ∈ (checkForAttack sz cc).1.lastReportedPrefixes ↔
      isReported cc.lastReports n ∧
      F32.ge (expireRatio (reportedTotal cc.lastReports n % 2 ^ 32) cc.pitSize) cc.gamma
        = true := by
  rw [checkForAttack_lastReportedPrefixes]
  exact mem_maliciousPrefixes cc n

/-- C1 (counterexample). With capacity 5000 and threshold 0.2, four monitors
that each report `2 ^ 30` for the name 7 give the exact total `2 ^ 32`, whose
ratio to the capacity is far above the threshold, and yet the name is not in the
malicious set: the 32-bit sum has wrapped to zero. -/
theorem C1_counterexample_wrapped_total :
    0 < wrapCC.pitSize ∧
    wrapCC.gamma = F32.fin 13421773 (-26) ∧
    F32.toRat wrapCC.gamma ≤ 1 ∧
    reportedTotal wrapCC.lastReports 7 = 2 ^ 32 ∧
    F32.toRat wrapCC.gamma ≤ (reportedTotal wrapCC.lastReports 7 : ℚ) / (wrapCC.pitSize : ℚ) ∧
    7 ∉ (checkForAttack 40 wrapCC).1.lastReportedPrefixes := by
  have hg : wrapCC.gamma = F32.fin 13421773 (-26) := by decide
  have ht : reportedTotal wrapCC.lastReports 7 = 2 ^ 32 := by decide
  have hp : wrapCC.pitSize = 5000 := by decide
  refine ⟨by decide, hg, ?_, ht, ?_, by decide⟩
  · rw [hg]; simp only [F32.toRat]; norm_num
  · rw [hg, ht, hp]; simp only [F32.toRat]; norm_num

/-- C2. A detection pass whose computed set differs from the set announced
before calls `setMaliciousPrefixes` with the computed set on every registered
monitor, once each, and records the computed set as the announced one; a pass
whose computed set equals the announced set makes no call and leaves the whole
state, the announced set and the counters of sent messages included, as it
was. -/
theorem C2_checkForAttack_dispatch (sz : Nat) (cc : CC Name) :
    (maliciousPrefixes cc ≠ cc.lastReportedPrefixes →
      (checkForAttack sz cc).2 =
          cc.monitors.entries.map (fun it => (it.2, maliciousPrefixes cc)) ∧
        (checkForAttack sz cc).1.lastReportedPrefixes = maliciousPrefixes cc) ∧
    (maliciousPrefixes cc = cc.lastReportedPrefixes →
      (checkForAttack sz cc).2 = [] ∧ (checkForAttack sz cc).1 = cc) := by
  constructor
  · intro h
    unfold checkForAttack
    rw [if_pos h]
    exact ⟨rfl, rfl⟩
  · intro h
    unfold checkForAttack
    rw [if_neg (not_not.2 h)]
    exact ⟨rfl, rfl⟩

/-- C2 (witness). In the pending state the computed set is new and goes to the
one registered monitor; in the state after the report it is not new and
nothing happens. -/
theorem C2_checkForAttack_dispatch_witness :
    (maliciousPrefixes pendingCC ≠ pendingCC.lastReportedPrefixes ∧
      (checkForAttack 40 pendingCC).2 =
          pendingCC.monitors.entries.map (fun it => (it.2, maliciousPrefixes pendingCC)) ∧
      (checkForAttack 40 pendingCC).2 = [(101, {7})] ∧
      (checkForAttack 40 pendingCC).1.lastReportedPrefixes = maliciousPrefixes pendingCC) ∧
    (maliciousPrefixes attackCC = attackCC.lastReportedPrefixes ∧
      (checkForAttack 40 attackCC).2 = [] ∧ (checkForAttack 40 attackCC).1 = attackCC) :=
  ⟨⟨by decide, ((C2_checkForAttack_dispatch 40 pendingCC).1 (by decide)).1, by decide,
      ((C2_checkForAttack_dispatch 40 pendingCC).1 (by decide)).2⟩,
    ⟨by decide, (C2_checkForAttack_dispatch 40 attackCC).2 (by decide)⟩⟩

/-- C3. After `report(node, r)` the map of last reports is the map before with
`node` mapped to `r`: the entry of the node is `r`, the entry of every other
node is the one before, the keys are those before and the node, each key has
one entry; and after any run the keys are those before the run and the nodes
that have reported in it, so no entry is ever removed. -/
theorem C3_report_lastReports (sz : Nat) (cc : CC Name) (node : Node) (r : CNMRReport Name) :
    (report sz cc node r).1.lastReports = cc.lastReports.assign node.id r ∧
    (∀ m, (report sz cc node r).1.lastReports.find m =
      if m = node.id then some r else cc.lastReports.find m) ∧
    (∀ m, m ∈ (report sz cc node r).1.lastReports.keys ↔
      m = node.id ∨ m ∈ cc.lastReports.keys) ∧
    (report sz cc node r).1.lastReports.keys.Nodup ∧
    (∀ (evs : List (Event Name)) (m : Nat),
      (m ∈ (run sz cc evs).1.lastReports.keys ↔
        m ∈ cc.lastReports.keys ∨ ∃ node' r', Event.report node' r' ∈ evs ∧ node'.id = m) ∧
      (run sz cc evs).1.lastReports.keys.Nodup) := by
  refine ⟨report_lastReports sz cc node r, ?_, ?_, StdMap.nodup_keys _, ?_⟩
  · intro m
    rw [report_lastReports, StdMap.find_assign]
  · intro m
    rw [report_lastReports, StdMap.mem_keys_assign]
  · intro evs m
    exact ⟨run_lastReports_keys sz cc evs m, StdMap.nodup_keys _⟩

/-- C4 (the code at issue). One call of `report` counts the message twice:
`numMessagesReceived` is incremented at the start of the function and again
after the size of the report has been added, so it grows by two (modulo
`2 ^ 32`), not by one. -/
theorem C4_report_counts_message_twice (sz : Nat) (cc : CC Name) (node : Node)
    (r : CNMRReport Name) :
    (report sz cc node r).1.numMessagesReceived = (cc.numMessagesReceived + 2) % 2 ^ 32 ∧
    (report 40 freshCC ⟨1, 101⟩ (CNMRReport.single 7 1000)).1.numMessagesReceived = 2 := by
  refine ⟨?_, by decide⟩
  rw [report_numMessagesReceived]
  omega

/-- C5 (as amended). A capacity of 0 is not rejected: the constructor stores
`PITSize = 0` like any other value, and a detection pass then divides by zero in
single precision. With a finite threshold, a name is classified malicious
exactly when it is reported and its 32-bit sum is not zero (the ratio is
`+inf`); a reported name whose sum is zero has the ratio `NaN` and is not
classified. -/
theorem C5_zero_capacity_accepted (gammaNum gammaDen c1 c2 c3 c4 c5 : Nat) :
    (CC.new 0 gammaNum gammaDen c1 c2 c3 c4 c5 : CC Name).pitSize = 0 ∧
    (∀ (sz : Nat) (cc : CC Name) (n : Name) (m0 : Nat) (e0 : ℤ),
      cc.pitSize = 0 → cc.gamma = F32.fin m0 e0 →
      (n ∈ (checkForAttack sz cc).1.lastReportedPrefixes ↔
        isReported cc.lastReports n ∧ reportedTotal cc.lastReports n % 2 ^ 32 ≠ 0)) := by
  refine ⟨rfl, ?_⟩
  intro sz cc n m0 e0 hp hg
  rw [mem_checkForAttack_iff, hp, hg,
    expireRatio_zero_capacity _ (Nat.mod_lt _ (by norm_num))]
  split_ifs with h
  · constructor
    · rintro ⟨-, hge⟩
      exact absurd hge (by simp [F32.ge])
    · rintro ⟨-, hne⟩
      exact absurd h hne
  · constructor
    · rintro ⟨hr, -⟩
      exact ⟨hr, h⟩
    · rintro ⟨hr, -⟩
      exact ⟨hr, by simp [F32.ge]⟩

/-- C5 (witness). The controller constructed with capacity 0 and threshold 0.2:
a report of one timed-out entry for the name 7 makes the name malicious. -/
theorem C5_zero_capacity_accepted_witness :
    (CC.new 0 3602879701896397 (2 ^ 54) 0 0 0 0 0 : CC Nat).pitSize = 0 ∧
    (7 ∈ (checkForAttack 40 (stored 40 zeroCC ⟨1, 101⟩
        (CNMRReport.single 7 1))).1.lastReportedPrefixes ↔
      isReported (stored 40 zeroCC ⟨1, 101⟩ (CNMRReport.single 7 1)).lastReports 7 ∧
        reportedTotal (stored 40 zeroCC ⟨1, 101⟩ (CNMRReport.single 7 1)).lastReports 7
          % 2 ^ 32 ≠ 0) :=
  ⟨(@C5_zero_capacity_accepted Nat _ 3602879701896397 (2 ^ 54) 0 0 0 0 0).1,
    (@C5_zero_capacity_accepted Nat _ 3602879701896397 (2 ^ 54) 0 0 0 0 0).2 40
      (stored 40 zeroCC ⟨1, 101⟩ (CNMRReport.single 7 1)) 7 13421773 (-26)
      (by decide) (by decide)⟩

/-- C5 (counterexample). Constructing the controller with capacity 0 gives a
controller; its first report runs a detection pass with the capacity 0, in
which the ratio of the name 7 is `+inf`, and the name is announced to the
monitor. -/
theorem C5_counterexample_zero_capacity :
    zeroCC.pitSize = 0 ∧
    expireRatio 1 zeroCC.pitSize = F32.inf ∧
    (report 40 zeroCC ⟨1, 101⟩ (CNMRReport.single 7 1)).2 = [(101, {7})] ∧
    (report 40 zeroCC ⟨1, 101⟩ (CNMRReport.single 7 1)).1.lastReportedPrefixes = {7} := by
  refine ⟨by decide, by decide, by decide, by decide⟩

/-- C7 (as amended). When two consecutive reports make detection passes that
compute the identical set, the second pass dispatches nothing, and the two
passes together dispatch the set once, in the first pass, if it differs from
the set announced before, and not at all otherwise. In every run of reports
and timer events, every dispatched set differs from the one dispatched before
it, and the first from the set announced before the run. -/
theorem C7_no_reannouncement (sz : Nat) (cc : CC Name) :
    (∀ (n1 n2 : Node) (r1 r2 : CNMRReport Name),
      maliciousPrefixes (report sz (report sz cc n1 r1).1 n2 r2).1 =
          maliciousPrefixes (report sz cc n1 r1).1 →
        (report sz (report sz cc n1 r1).1 n2 r2).2 = [] ∧
        dispatchedSets [(report sz cc n1 r1).2, (report sz (report sz cc n1 r1).1 n2 r2).2] =
          if maliciousPrefixes (report sz cc n1 r1).1 ≠ cc.lastReportedPrefixes then
            [maliciousPrefixes (report sz cc n1 r1).1]
          else []) ∧
    (∀ evs : List (Event Name),
      List.Chain (· ≠ ·) cc.lastReportedPrefixes (dispatchedSets (run sz cc evs).2)) := by
  refine ⟨?_, chain_dispatchedSets sz cc⟩
  intro n1 n2 r1 r2 h
  have h2 : (report sz (report sz cc n1 r1).1 n2 r2).2 = [] := by
    rw [report_calls_eq_nil_iff, h, report_lastReportedPrefixes]
  refine ⟨h2, ?_⟩
  unfold dispatchedSets
  rw [List.filterMap_cons, List.filterMap_cons, List.filterMap_nil, h2, report_calls_head]
  split_ifs <;> rfl

/-- C7 (witness). Node 1 reports 1000 for the name 7 twice to the fresh
controller: both passes compute the set with the name 7, the first dispatches
it and the second dispatches nothing. -/
theorem C7_no_reannouncement_witness :
    maliciousPrefixes (report 40 (report 40 freshCC ⟨1, 101⟩ (CNMRReport.single 7 1000)).1
        ⟨1, 101⟩ (CNMRReport.single 7 1000)).1 =
      maliciousPrefixes (report 40 freshCC ⟨1, 101⟩ (CNMRReport.single 7 1000)).1 ∧
    ((report 40 (report 40 freshCC ⟨1, 101⟩ (CNMRReport.single 7 1000)).1
        ⟨1, 101⟩ (CNMRReport.single 7 1000)).2 = [] ∧
      dispatchedSets [(report 40 freshCC ⟨1, 101⟩ (CNMRReport.single 7 1000)).2,
          (report 40 (report 40 freshCC ⟨1, 101⟩ (CNMRReport.single 7 1000)).1
            ⟨1, 101⟩ (CNMRReport.single 7 1000)).2] =
        if maliciousPrefixes (report 40 freshCC ⟨1, 101⟩ (CNMRReport.single 7 1000)).1 ≠
            freshCC.lastReportedPrefixes then
          [maliciousPrefixes (report 40 freshCC ⟨1, 101⟩ (CNMRReport.single 7 1000)).1]
        else []) :=
  ⟨by decide,
    (C7_no_reannouncement 40 freshCC).1 ⟨1, 101⟩ ⟨1, 101⟩ (CNMRReport.single 7 1000)
      (CNMRReport.single 7 1000) (by decide)⟩

/-- C7 (counterexample). Two consecutive reports without entries to the fresh
controller make two passes that compute the identical (empty) set, and there is
no dispatch at all, not one. -/
theorem C7_counterexample_no_dispatch :
    maliciousPrefixes (report 40 (report 40 freshCC ⟨1, 101⟩ CNMRReport.none).1
        ⟨1, 101⟩ CNMRReport.none).1 =
      maliciousPrefixes (report 40 freshCC ⟨1, 101⟩ CNMRReport.none).1 ∧
    (run 40 freshCC
      [Event.report ⟨1, 101⟩ CNMRReport.none, Event.report ⟨1, 101⟩ CNMRReport.none]).2 =
        [[], []] ∧
    (dispatchedSets (run 40 freshCC
      [Event.report ⟨1, 101⟩ CNMRReport.none, Event.report ⟨1, 101⟩ CNMRReport.none]).2).length
        ≠ 1 := by
  refine ⟨by decide, by decide, by decide⟩

/-- C8. Reports of two different nodes commute: in either order the map of last
reports, the malicious set computed from it and the set announced at the end
are the same; and the computed set is a function of the map of last reports
(and of the two configured values) alone. -/
theorem C8_report_commute (sz : Nat) (cc : CC Name) (n1 n2 : Node) (r1 r2 : CNMRReport Name)
    (h : n1.id ≠ n2.id) :
    (report sz (report sz cc n1 r1).1 n2 r2).1.lastReports =
        (report sz (report sz cc n2 r2).1 n1 r1).1.lastReports ∧
    maliciousPrefixes (report sz (report sz cc n1 r1).1 n2 r2).1 =
        maliciousPrefixes (report sz (report sz cc n2 r2).1 n1 r1).1 ∧
    (report sz (report sz cc n1 r1).1 n2 r2).1.lastReportedPrefixes =
        (report sz (report sz cc n2 r2).1 n1 r1).1.lastReportedPrefixes ∧
    (∀ a b : CC Name, a.lastReports = b.lastReports → a.pitSize = b.pitSize →
      a.gamma = b.gamma →
      (checkForAttack sz a).1.lastReportedPrefixes =
        (checkForAttack sz b).1.lastReportedPrefixes) := by
  have hmap : (report sz (report sz cc n1 r1).1 n2 r2).1.lastReports =
      (report sz (report sz cc n2 r2).1 n1 r1).1.lastReports := by
    rw [report_lastReports, report_lastReports, report_lastReports, report_lastReports]
    exact StdMap.assign_comm cc.lastReports n2.id n1.id r2 r1 (Ne.symm h)
  have hmal : maliciousPrefixes (report sz (report sz cc n1 r1).1 n2 r2).1 =
      maliciousPrefixes (report sz (report sz cc n2 r2).1 n1 r1).1 := by
    apply maliciousPrefixes_congr _ _ hmap
    · rw [(report_config sz _ n2 r2).1, (report_config sz _ n1 r1).1,
        (report_config sz _ n1 r1).1, (report_config sz _ n2 r2).1]
    · rw [(report_config sz _ n2 r2).2, (report_config sz _ n1 r1).2,
        (report_config sz _ n1 r1).2, (report_config sz _ n2 r2).2]
  refine ⟨hmap, hmal, ?_, ?_⟩
  · rw [report_lastReportedPrefixes, report_lastReportedPrefixes sz _ n1 r1]
    exact hmal
  · intro a b h1 h2 h3
    rw [checkForAttack_lastReportedPrefixes, checkForAttack_lastReportedPrefixes]
    exact maliciousPrefixes_congr a b h1 h2 h3

/-- C8 (witness). Node 1 reporting 600 and node 2 reporting 400 for the name 7,
in either order. -/
theorem C8_report_commute_witness :
    (report 40 (report 40 freshCC ⟨1, 101⟩ (CNMRReport.single 7 600)).1 ⟨2, 102⟩
        (CNMRReport.single 7 400)).1.lastReportedPrefixes =
      (report 40 (report 40 freshCC ⟨2, 102⟩ (CNMRReport.single 7 400)).1 ⟨1, 101⟩
        (CNMRReport.single 7 600)).1.lastReportedPrefixes ∧
    (report 40 (report 40 freshCC ⟨1, 101⟩ (CNMRReport.single 7 600)).1 ⟨2, 102⟩
        (CNMRReport.single 7 400)).1.lastReportedPrefixes = {7} :=
  ⟨(C8_report_commute 40 freshCC ⟨1, 101⟩ ⟨2, 102⟩ (CNMRReport.single 7 600)
      (CNMRReport.single 7 400) (by decide)).2.2.1, by decide⟩

/-- C9. Calling `report(node, r)` a second time changes neither the map of last
reports, nor the counts collected per name, nor the malicious set, nor the set
announced, and the second call dispatches nothing. -/
theorem C9_report_idempotent (sz : Nat) (cc : CC Name) (node : Node) (r : CNMRReport Name) :
    (report sz (report sz cc node r).1 node r).1.lastReports =
        (report sz cc node r).1.lastReports ∧
    timedOutEntriesPerName (report sz (report sz cc node r).1 node r).1.lastReports =
        timedOutEntriesPerName (report sz cc node r).1.lastReports ∧
    (∀ n, reportedTotal (report sz (report sz cc node r).1 node r).1.lastReports n =
        reportedTotal (report sz cc node r).1.lastReports n) ∧
    maliciousPrefixes (report sz (report sz cc node r).1 node r).1 =
        maliciousPrefixes (report sz cc node r).1 ∧
    (report sz (report sz cc node r).1 node r).1.lastReportedPrefixes =
        (report sz cc node r).1.lastReportedPrefixes ∧
    (report sz (report sz cc node r).1 node r).2 = [] := by
  have hmap : (report sz (report sz cc node r).1 node r).1.lastReports =
      (report sz cc node r).1.lastReports := by
    rw [report_lastReports, report_lastReports]
    exact StdMap.assign_assign cc.lastReports node.id r r
  have hmal : maliciousPrefixes (report sz (report sz cc node r).1 node r).1 =
      maliciousPrefixes (report sz cc node r).1 :=
    maliciousPrefixes_congr _ _ hmap (report_config sz _ node r).1 (report_config sz _ node r).2
  refine ⟨hmap, by rw [hmap], fun n => by rw [hmap], hmal, ?_, ?_⟩
  · rw [report_lastReportedPrefixes, hmal, ← report_lastReportedPrefixes]
  · rw [report_calls_eq_nil_iff, hmal, report_lastReportedPrefixes]

/-- C10. When reports were stored in the current period, `print` writes the four
rows and leaves the four counters (and the total size) at zero, and a second
`print` with no report in between writes no row and changes nothing. -/
theorem C10_print_resets (cc : CC Name) (now now' : Nat)
    (h : cc.reportsCurrentPeriod.size ≠ 0) :
    (print cc now).1.numMessagesReceived = 0 ∧
    (print cc now).1.numMessagesSent = 0 ∧
    (print cc now).1.sizeMessagesReceived = 0 ∧
    (print cc now).1.sizeMessagesSent = 0 ∧
    (print cc now).2.length = 4 ∧
    print (print cc now).1 now' = ((print cc now).1, []) ∧
    onTimerPrint (onTimerPrint cc now).1 now' = ((onTimerPrint cc now).1, []) := by
  have hp : print cc now =
      ({ cc with
          reportsCurrentPeriod := StdMap.empty
          sizeReports := 0
          numMessagesSent := 0
          numMessagesReceived := 0
          sizeMessagesSent := 0
          sizeMessagesReceived := 0 },
        [⟨now, "CC", "all", "NumReceived", cc.numMessagesReceived⟩,
         ⟨now, "CC", "all", "NumSent", cc.numMessagesSent⟩,
         ⟨now, "CC", "all", "SizeReceived", cc.sizeMessagesReceived⟩,
         ⟨now, "CC", "all", "SizeSent", cc.sizeMessagesSent⟩]) := by
    unfold print
    rw [if_neg h]
  have h2 : print (print cc now).1 now' = ((print cc now).1, []) := by
    rw [hp]
    rfl
  exact ⟨by rw [hp], by rw [hp], by rw [hp], by rw [hp], by rw [hp]; rfl, h2, h2⟩

/-- C10 (witness). The controller after the report of node 1, printed at time
10 and again at time 20. -/
theorem C10_print_resets_witness :
    attackCC.reportsCurrentPeriod.size ≠ 0 ∧
    (print attackCC 10).1.numMessagesReceived = 0 ∧
    (print attackCC 10).1.numMessagesSent = 0 ∧
    (print attackCC 10).1.sizeMessagesReceived = 0 ∧
    (print attackCC 10).1.sizeMessagesSent = 0 ∧
    (print attackCC 10).2.length = 4 ∧
    print (print attackCC 10).1 20 = ((print attackCC 10).1, []) ∧
    onTimerPrint (onTimerPrint attackCC 10).1 20 = ((onTimerPrint attackCC 10).1, []) :=
  ⟨by decide, C10_print_resets attackCC 10 20 (by decide)⟩

/-- C11 (as amended). A detection pass that dispatches a changed malicious set
`S` counts one message and the size `sizeof(Name) + 4 + |S| * sizeof(Name)`:
`numMessagesSent` grows by exactly one when it is below the largest `uint32_t`,
and `sizeMessagesSent` grows by exactly that size when the new byte count is
below `2 ^ 53`, the range in which a `double` holds every integer. -/
theorem C11_dispatch_counted_once (sz : Nat) (cc : CC Name)
    (hchg : maliciousPrefixes cc ≠ cc.lastReportedPrefixes) :
    (cc.numMessagesSent + 1 < 2 ^ 32 →
      (checkForAttack sz cc).1.numMessagesSent = cc.numMessagesSent + 1) ∧
    (cc.sizeMessagesSent + (sz + 4 + (maliciousPrefixes cc).card * sz) < 2 ^ 53 →
      (checkForAttack sz cc).1.sizeMessagesSent =
        cc.sizeMessagesSent + (sz + 4 + (maliciousPrefixes cc).card * sz)) := by
  constructor
  · intro hn
    unfold checkForAttack
    rw [if_pos hchg]
    simp only []
    exact Nat.mod_eq_of_lt hn
  · intro hb
    have hlt : (2 : Nat) ^ 53 < 2 ^ 64 := by norm_num
    have h1 : (maliciousPrefixes cc).card * sz % 2 ^ 64 = (maliciousPrefixes cc).card * sz :=
      Nat.mod_eq_of_lt (by omega)
    have h2 : (sz + 4 + (maliciousPrefixes cc).card * sz) % 2 ^ 64 =
        sz + 4 + (maliciousPrefixes cc).card * sz := Nat.mod_eq_of_lt (by omega)
    unfold checkForAttack
    rw [if_pos hchg]
    simp only []
    rw [h1, h2, roundDouble_of_lt _ (by omega), dadd_of_lt _ _ hb]

/-- C11 (witness). The pending controller dispatches the set with the name 7:
one message and `40 + 4 + 1 * 40` bytes. -/
theorem C11_dispatch_counted_once_witness :
    maliciousPrefixes pendingCC ≠ pendingCC.lastReportedPrefixes ∧
    (checkForAttack 40 pendingCC).1.numMessagesSent = pendingCC.numMessagesSent + 1 ∧
    (checkForAttack 40 pendingCC).1.sizeMessagesSent =
      pendingCC.sizeMessagesSent + (40 + 4 + (maliciousPrefixes pendingCC).card * 40) :=
  ⟨by decide, (C11_dispatch_counted_once 40 pendingCC (by decide)).1 (by decide),
    (C11_dispatch_counted_once 40 pendingCC (by decide)).2 (by decide)⟩

/-- C11 (counterexample). With `numMessagesSent` at `2 ^ 32 - 1` and
`sizeMessagesSent` at `2 ^ 56`, the dispatch of the set with the name 7 (84
bytes) leaves `numMessagesSent` at 0 and adds 80 to `sizeMessagesSent`. -/
theorem C11_counterexample_saturated_counters :
    maliciousPrefixes saturatedCC ≠ saturatedCC.lastReportedPrefixes ∧
    (checkForAttack 40 saturatedCC).2 = [(101, {7})] ∧
    40 + 4 + (maliciousPrefixes saturatedCC).card * 40 = 84 ∧
    saturatedCC.numMessagesSent = 4294967295 ∧
    (checkForAttack 40 saturatedCC).1.numMessagesSent = 0 ∧
    (checkForAttack 40 saturatedCC).1.sizeMessagesSent = saturatedCC.sizeMessagesSent + 80 := by
  refine ⟨by decide, by decide, by decide, by decide, by decide, by decide⟩

/-- C12. Capacity 100, threshold 0.2, fresh controller, the name `/x` numbered
7, monitor A on node 1 and monitor B on node 2. After A reports 15 and B reports
10 the total is 25, the name is malicious and the set with exactly that name
has been delivered to A and to B, the registered monitors; when A then reports
5, the total is 15, the name is no longer malicious and the empty set is
delivered to A and to B. -/
theorem C12_scenario :
    (run 40 scenarioCC
      [Event.report ⟨1, 101⟩ (CNMRReport.single 7 15),
       Event.report ⟨2, 102⟩ (CNMRReport.single 7 10)]).2 =
        [[], [(101, {7}), (102, {7})]] ∧
    reportedTotal (run 40 scenarioCC
      [Event.report ⟨1, 101⟩ (CNMRReport.single 7 15),
       Event.report ⟨2, 102⟩ (CNMRReport.single 7 10)]).1.lastReports 7 = 25 ∧
    (run 40 scenarioCC
      [Event.report ⟨1, 101⟩ (CNMRReport.single 7 15),
       Event.report ⟨2, 102⟩ (CNMRReport.single 7 10)]).1.lastReportedPrefixes = {7} ∧
    (run 40 scenarioCC
      [Event.report ⟨1, 101⟩ (CNMRReport.single 7 15),
       Event.report ⟨2, 102⟩ (CNMRReport.single 7 10)]).1.monitors.entries =
        [(1, 101), (2, 102)] ∧
    (run 40 scenarioCC
      [Event.report ⟨1, 101⟩ (CNMRReport.single 7 15),
       Event.report ⟨2, 102⟩ (CNMRReport.single 7 10),
       Event.report ⟨1, 101⟩ (CNMRReport.single 7 5)]).2 =
        [[], [(101, {7}), (102, {7})], [(101, ∅), (102, ∅)]] ∧
    reportedTotal (run 40 scenarioCC
      [Event.report ⟨1, 101⟩ (CNMRReport.single 7 15),
       Event.report ⟨2, 102⟩ (CNMRReport.single 7 10),
       Event.report ⟨1, 101⟩ (CNMRReport.single 7 5)]).1.lastReports 7 = 15 ∧
    (run 40 scenarioCC
      [Event.report ⟨1, 101⟩ (CNMRReport.single 7 15),
       Event.report ⟨2, 102⟩ (CNMRReport.single 7 10),
       Event.report ⟨1, 101⟩ (CNMRReport.single 7 5)]).1.lastReportedPrefixes = ∅ := by
  refine ⟨by decide, by decide, by decide, by decide, by decide, by decide, by decide⟩

/-- C13. A report registers its node with the node's notification target when
the node has no target yet and keeps the registered target otherwise; the
targets of all other nodes are as before; and a registered target stays the
same through every run of reports and timer events. -/
theorem C13_registration_first_wins (sz : Nat) (cc : CC Name) :
    (∀ (node : Node) (r : CNMRReport Name) (m : Nat),
      (report sz cc node r).1.monitors.find m =
        if m = node.id then some ((cc.monitors.find m).getD node.routing)
        else cc.monitors.find m) ∧
    (∀ (evs : List (Event Name)) (m : Nat) (h : Handle),
      cc.monitors.find m = some h → (run sz cc evs).1.monitors.find m = some h) :=
  ⟨fun node r m => report_monitors_find sz cc node r m,
    fun evs m h hf => run_monitors_find sz cc evs m h hf⟩

/-- C13 (witness). Node 1 is registered with the target 101; a later report of
node 1 that comes with the target 999 leaves 101 registered. -/
theorem C13_registration_first_wins_witness :
    attackCC.monitors.find 1 = some 101 ∧
    (run 40 attackCC [Event.report ⟨1, 999⟩ (CNMRReport.single 7 5),
      Event.timer 10]).1.monitors.find 1 = some 101 :=
  ⟨by decide, (C13_registration_first_wins 40 attackCC).2
    [Event.report ⟨1, 999⟩ (CNMRReport.single 7 5), Event.timer 10] 1 101 (by decide)⟩

/-- C14 (as amended). The size of a report with `k` names is
`sizeof(Name) + 4 + k * (sizeof(Name) + 4)`, and one call of `report` adds
exactly this size to `sizeMessagesReceived`, when the new byte count is below
`2 ^ 53`, the range in which a `double` holds every integer. The size is a
function of the number of names, not of the counts, and a report without names
adds `sizeof(Name) + 4`. -/
theorem C14_report_adds_size (sz : Nat) (cc : CC Name) (node : Node) (r : CNMRReport Name)
    (hb : cc.sizeMessagesReceived + (sz + 4 + r.timedOutEntriesPerName.size * (sz + 4))
      < 2 ^ 53) :
    getSizeReport sz r = sz + 4 + r.timedOutEntriesPerName.size * (sz + 4) ∧
    (report sz cc node r).1.sizeMessagesReceived =
      cc.sizeMessagesReceived + (sz + 4 + r.timedOutEntriesPerName.size * (sz + 4)) ∧
    (∀ r' : CNMRReport Name, r'.timedOutEntriesPerName.size = r.timedOutEntriesPerName.size →
      getSizeReport sz r' = getSizeReport sz r) ∧
    (r.timedOutEntriesPerName.size = 0 →
      (report sz cc node r).1.sizeMessagesReceived = cc.sizeMessagesReceived + (sz + 4)) := by
  have hs := getSizeReport_eq sz r (by omega)
  have hr : (report sz cc node r).1.sizeMessagesReceived =
      cc.sizeMessagesReceived + (sz + 4 + r.timedOutEntriesPerName.size * (sz + 4)) := by
    rw [report_sizeMessagesReceived, hs, dadd_of_lt _ _ hb]
  refine ⟨hs, hr, ?_, ?_⟩
  · intro r' hk
    unfold getSizeReport
    rw [hk]
  · intro hk
    rw [hr, hk, Nat.zero_mul, Nat.add_zero]

/-- C14 (witness). A report with one name to the fresh controller adds
`40 + 4 + 1 * (40 + 4)` bytes. -/
theorem C14_report_adds_size_witness :
    getSizeReport 40 (CNMRReport.single 7 1000 : CNMRReport Nat) = 88 ∧
    (report 40 freshCC ⟨1, 101⟩ (CNMRReport.single 7 1000)).1.sizeMessagesReceived =
      freshCC.sizeMessagesReceived +
        (40 + 4 + (CNMRReport.single 7 1000 : CNMRReport Nat).timedOutEntriesPerName.size
          * (40 + 4)) :=
  ⟨by decide, (C14_report_adds_size 40 freshCC ⟨1, 101⟩ (CNMRReport.single 7 1000)
    (by decide)).2.1⟩

/-- C14 (counterexample). With `sizeMessagesReceived` at `2 ^ 56`, a report
with one name, whose size is 88, adds 96. -/
theorem C14_counterexample_large_byte_count :
    getSizeReport 40 (CNMRReport.single 7 1000 : CNMRReport Nat) = 88 ∧
    heavyCC.sizeMessagesReceived = 2 ^ 56 ∧
    (report 40 heavyCC ⟨1, 101⟩ (CNMRReport.single 7 1000)).1.sizeMessagesReceived =
      heavyCC.sizeMessagesReceived + 96 := by
  refine ⟨by decide, by decide, by decide⟩

/-- C15 (as amended). In every state that a run of reports and timer events
reaches from the constructed controller, whatever the capacity, the set
announced last is the set that the detection computes from the current map of
last reports; and what any monitor was last told in the run, if it was told
anything, is this set. A registered monitor is called in every dispatch, so a
monitor that is told nothing in a run that starts after its registration has
missed no change: the announced set is the one from before that run. -/
theorem C15_announced_is_current_verdict (sz p g1 g2 c1 c2 c3 c4 c5 : Nat)
    (evs : List (Event Name)) :
    (run sz (CC.new p g1 g2 c1 c2 c3 c4 c5 : CC Name) evs).1.lastReportedPrefixes =
      maliciousPrefixes (run sz (CC.new p g1 g2 c1 c2 c3 c4 c5 : CC Name) evs).1 ∧
    (∀ (h : Handle) (S : Finset Name),
      lastTold (run sz (CC.new p g1 g2 c1 c2 c3 c4 c5 : CC Name) evs).2 h = some S →
        S = maliciousPrefixes (run sz (CC.new p g1 g2 c1 c2 c3 c4 c5 : CC Name) evs).1) ∧
    (∀ (cc : CC Name) (m : Nat) (h : Handle), cc.monitors.find m = some h →
      lastTold (run sz cc evs).2 h = none →
        (run sz cc evs).1.lastReportedPrefixes = cc.lastReportedPrefixes) := by
  have hI := run_invariant sz (CC.new p g1 g2 c1 c2 c3 c4 c5 : CC Name) evs
    (new_invariant p g1 g2 c1 c2 c3 c4 c5)
  refine ⟨hI, fun h S ht => ?_, fun cc m h hreg hn => run_silent sz cc evs h m hreg hn⟩
  rw [← hI]
  exact lastTold_eq sz _ evs h S ht

/-- C15 (witness). In the scenario run the monitor of node 2 was last told the
empty set, which is the set computed at the end. -/
theorem C15_announced_is_current_verdict_witness :
    lastTold (run 40 (CC.new 100 3602879701896397 (2 ^ 54) 0 0 0 0 0 : CC Nat)
      [Event.report ⟨1, 101⟩ (CNMRReport.single 7 15),
       Event.report ⟨2, 102⟩ (CNMRReport.single 7 10),
       Event.timer 10,
       Event.report ⟨1, 101⟩ (CNMRReport.single 7 5)]).2 102 = some ∅ ∧
    (∅ : Finset Nat) = maliciousPrefixes (run 40
      (CC.new 100 3602879701896397 (2 ^ 54) 0 0 0 0 0 : CC Nat)
      [Event.report ⟨1, 101⟩ (CNMRReport.single 7 15),
       Event.report ⟨2, 102⟩ (CNMRReport.single 7 10),
       Event.timer 10,
       Event.report ⟨1, 101⟩ (CNMRReport.single 7 5)]).1 :=
  ⟨by decide, (@C15_announced_is_current_verdict Nat _ 40 100 3602879701896397 (2 ^ 54)
    0 0 0 0 0
    [Event.report ⟨1, 101⟩ (CNMRReport.single 7 15),
     Event.report ⟨2, 102⟩ (CNMRReport.single 7 10),
     Event.timer 10,
     Event.report ⟨1, 101⟩ (CNMRReport.single 7 5)]).2.1 102 ∅ (by decide)⟩

/-- C15 (counterexample). Capacity 5000 and threshold 0.2, from the constructed
controller: node 1 reports 1000 for the name 7, which is announced to its
monitor 101; then node 2 reports 5 for the name 7. The computed set is still
the set with the name 7, so the second report makes no call: the monitor 102 of
node 2 is registered and has been told nothing, while the current verdict is
the set with the name 7. -/
theorem C15_counterexample_late_monitor :
    (run 40 freshCC
      [Event.report ⟨1, 101⟩ (CNMRReport.single 7 1000),
       Event.report ⟨2, 102⟩ (CNMRReport.single 7 5)]).1.monitors.find 2 = some 102 ∧
    maliciousPrefixes (run 40 freshCC
      [Event.report ⟨1, 101⟩ (CNMRReport.single 7 1000),
       Event.report ⟨2, 102⟩ (CNMRReport.single 7 5)]).1 = {7} ∧
    (run 40 freshCC
      [Event.report ⟨1, 101⟩ (CNMRReport.single 7 1000),
       Event.report ⟨2, 102⟩ (CNMRReport.single 7 5)]).1.lastReportedPrefixes = {7} ∧
    (run 40 freshCC
      [Event.report ⟨1, 101⟩ (CNMRReport.single 7 1000),
       Event.report ⟨2, 102⟩ (CNMRReport.single 7 5)]).2 = [[(101, {7})], []] ∧
    lastTold (run 40 freshCC
      [Event.report ⟨1, 101⟩ (CNMRReport.single 7 1000),
       Event.report ⟨2, 102⟩ (CNMRReport.single 7 5)]).2 102 = none := by
  refine ⟨by decide, by decide, by decide, by decide, by decide⟩

/-- C16. Let the capacity be a positive `uint32_t`, let a name be classified
malicious, and let the count that the last report of one monitor gives for the
name be replaced by a larger count. If the exact total of the name stays below
`2 ^ 32`, the name is still classified malicious. -/
theorem C16_monotone_in_count (sz : Nat) (cc : CC Name) (k : Nat) (r : CNMRReport Name)
    (n : Name) (c c' : Nat)
    (hr : cc.lastReports.find k = some r)
    (hc : r.timedOutEntriesPerName.find n = some c) (hle : c ≤ c')
    (hcap : 0 < cc.pitSize) (hcap32 : cc.pitSize < 2 ^ 32)
    (htot : reportedTotal (cc.lastReports.assign k (r.setCount n c')) n < 2 ^ 32)
    (hmal : n ∈ (checkForAttack sz cc).1.lastReportedPrefixes) :
    n ∈ (checkForAttack sz
      { cc with lastReports := cc.lastReports.assign k (r.setCount n c') }).1.lastReportedPrefixes
    := by
  rw [mem_checkForAttack_iff] at hmal ⊢
  have hnew : ((r.setCount n c').timedOutEntriesPerName.find n).getD 0 = c' := by
    unfold CNMRReport.setCount
    rw [StdMap.find_assign, if_pos rfl]
    rfl
  have hsum := reportedTotal_assign cc.lastReports k r (r.setCount n c') n hr
  rw [hc, hnew] at hsum
  simp only [Option.getD_some] at hsum
  have hle' : reportedTotal cc.lastReports n ≤
      reportedTotal (cc.lastReports.assign k (r.setCount n c')) n := by omega
  refine ⟨isReported_assign cc.lastReports k (r.setCount n c') n ?_, ?_⟩
  · unfold CNMRReport.setCount
    exact (StdMap.mem_keys_assign _ n c' n).2 (Or.inl rfl)
  · have h1 := hmal.2
    rw [Nat.mod_eq_of_lt (lt_of_le_of_lt hle' htot)] at h1
    show F32.ge (expireRatio
      (reportedTotal (cc.lastReports.assign k (r.setCount n c')) n % 2 ^ 32) cc.pitSize)
      cc.gamma = true
    rw [Nat.mod_eq_of_lt htot]
    exact expireRatio_mono _ _ cc.pitSize hle' htot hcap hcap32 cc.gamma h1

/-- C16 (witness). In the controller after the report of node 1, the name 7 is
malicious with the count 1000, and it is still malicious with the count 2000. -/
theorem C16_monotone_in_count_witness :
    7 ∈ (checkForAttack 40 attackCC).1.lastReportedPrefixes ∧
    7 ∈ (checkForAttack 40
      { attackCC with
        lastReports := attackCC.lastReports.assign 1
          ((CNMRReport.single 7 1000).setCount 7 2000) }).1.lastReportedPrefixes :=
  ⟨by decide, C16_monotone_in_count 40 attackCC 1 (CNMRReport.single 7 1000) 7 1000 2000
    (by decide) (by decide) (by decide) (by decide) (by decide) (by decide) (by decide)⟩

/-- C17. The function `print` leaves the map of last reports, the registered
monitors and the announced set as they were, so the next detection pass, run
directly or by the next report, computes and dispatches the same with or
without the emission; and when no report is stored for the period, `print`
writes no row and leaves the whole state, the counters included, as it was.
The timer handler does what `print` does. -/
theorem C17_print_frame (cc : CC Name) (now : Nat) :
    (print cc now).1.lastReports = cc.lastReports ∧
    (print cc now).1.monitors = cc.monitors ∧
    (print cc now).1.lastReportedPrefixes = cc.lastReportedPrefixes ∧
    maliciousPrefixes (print cc now).1 = maliciousPrefixes cc ∧
    (∀ sz : Nat, (checkForAttack sz (print cc now).1).2 = (checkForAttack sz cc).2 ∧
      (checkForAttack sz (print cc now).1).1.lastReportedPrefixes =
        (checkForAttack sz cc).1.lastReportedPrefixes) ∧
    (∀ (sz : Nat) (node : Node) (r : CNMRReport Name),
      (report sz (print cc now).1 node r).2 = (report sz cc node r).2 ∧
      (report sz (print cc now).1 node r).1.lastReportedPrefixes =
        (report sz cc node r).1.lastReportedPrefixes ∧
      (report sz (print cc now).1 node r).1.lastReports =
        (report sz cc node r).1.lastReports) ∧
    (cc.reportsCurrentPeriod.size = 0 → print cc now = (cc, [])) ∧
    onTimerPrint cc now = print cc now := by
  obtain ⟨f1, f2, f3, f4, f5⟩ := print_frame cc now
  refine ⟨f1, f2, f3, maliciousPrefixes_print cc now, ?_, ?_, ?_, rfl⟩
  · intro sz
    rw [checkForAttack_calls, checkForAttack_calls, checkForAttack_lastReportedPrefixes,
      checkForAttack_lastReportedPrefixes, maliciousPrefixes_print, f2, f3]
    exact ⟨rfl, rfl⟩
  · intro sz node r
    exact report_congr sz _ _ node r f1 f4 f5 f2 f3
  · intro h
    unfold print
    rw [if_pos h]

/-- C17 (witness). The fresh controller has no report stored: `print` changes
nothing; the controller after a report keeps its map of last reports. -/
theorem C17_print_frame_witness :
    freshCC.reportsCurrentPeriod.size = 0 ∧ print freshCC 10 = (freshCC, []) ∧
    (print attackCC 10).1.lastReports = attackCC.lastReports :=
  ⟨by decide, (C17_print_frame freshCC 10).2.2.2.2.2.2.1 (by decide),
    (C17_print_frame attackCC 10).1⟩

end Claims

end ns3.ndn
